import Mathlib

/-!
# Verification of the school-management data-consistency layer

Shallow embedding of the repository's model/store/sync code:

* `Tk.*` embeds `tkinter_implementation/school.py` (the in-memory
  relationship graph `SchoolSystem` with its entity classes).
* `Doc.*` embeds `Lab2_AbdelRahmanElKouche/documented proj/school_management.py`
  (the validated entity model and `SchoolManagementSystem`).
* `Db.*` embeds `Lab2_AbdelRahmanElKouche/documented proj/database_manager.py`
  (the SQLite-backed relational store and the dehydrate/rehydrate engine).

Python object graphs are embedded id-based: relationship lists hold entity
ids rather than object references.  Inside a registry with unique ids this
coincides with Python's identity-based membership tests, which is the regime
every theorem below works in (uniqueness is either enforced by the code, or
taken as an explicit hypothesis, or proved as a reachability invariant).

Machine-level notes on the SQLite embedding:

* the code never issues `PRAGMA foreign_keys = ON`, and Python's `sqlite3`
  leaves foreign-key enforcement OFF by default, so the schema's
  `ON DELETE CASCADE` / `ON DELETE SET NULL` actions are never enforced and
  foreign keys are never checked; the store model mirrors that;
* `created_at`/`updated_at` timestamps are not modelled (no claim touches
  them);
* `ORDER BY <text column>` is modelled by a stable insertion sort under
  SQLite's BINARY collation (byte order, which on UTF-8 agrees with
  codepoint order).
-/

/-! ## Generic list/string helpers used by the embedding -/

/-- Lexicographic byte/codepoint comparison of char lists (SQLite BINARY
collation on UTF-8 text). -/
def lexLe : List Char → List Char → Bool
  | [], _ => true
  | _ :: _, [] => false
  | a :: as, b :: bs =>
    if a.val < b.val then true else if b.val < a.val then false else lexLe as bs

/-- String comparison used to model SQL `ORDER BY` on text columns. -/
def strLe (a b : String) : Bool := lexLe a.data b.data

/-- Insert into a sorted list, keeping stability (equal keys stay behind
earlier elements). -/
def insertK (key : α → String) (x : α) : List α → List α
  | [] => [x]
  | y :: ys => if strLe (key x) (key y) then x :: y :: ys else y :: insertK key x ys

/-- Stable insertion sort by a string key; models SQL `ORDER BY key`. -/
def sortByKey (key : α → String) : List α → List α
  | [] => []
  | x :: xs => insertK key x (sortByKey key xs)

/-- Substring test on char lists; models Python's `q in s` on strings. -/
def isSubstr : List Char → List Char → Bool
  | q, [] => q.isEmpty
  | q, c :: rest => q.isPrefixOf (c :: rest) || isSubstr q rest

/-- Python `str.strip()`: drop whitespace from both ends. -/
def pyStrip (l : List Char) : List Char :=
  ((l.dropWhile Char.isWhitespace).reverse.dropWhile Char.isWhitespace).reverse

/-- Python `s.lower()` restricted to the ASCII case mapping, as a char list. -/
def lowerData (s : String) : List Char := s.data.map Char.toLower

/-- Update the first list element satisfying `p` (models mutating the object
returned by a linear `find`). -/
def updateFirstBy (p : α → Bool) (f : α → α) : List α → List α
  | [] => []
  | x :: xs => if p x then f x :: xs else x :: updateFirstBy p f xs

/-- Remove the first list element satisfying `p` (models Python
`list.remove(obj)`). -/
def eraseFirstBy (p : α → Bool) : List α → List α
  | [] => []
  | x :: xs => if p x then xs else x :: eraseFirstBy p xs

/-- Python `", ".join(parts)`. -/
def joinSep (sep : String) : List String → String
  | [] => ""
  | x :: xs => xs.foldl (fun acc y => acc ++ sep ++ y) x

/-! ## `Tk`: embedding of `tkinter_implementation/school.py` -/

namespace Tk

/-- `Student` from `school.py` (relationship list holds course ids). -/
structure Student where
  name : String
  age : Int
  email : String
  studentid : String
  courses : List String := []
deriving DecidableEq, Repr

/-- `Instructor` from `school.py` (relationship list holds course ids). -/
structure Instructor where
  name : String
  age : Int
  email : String
  instructorid : String
  courses : List String := []
deriving DecidableEq, Repr

/-- `Course` from `school.py` (`instructor` holds an instructor id,
`students` holds student ids). -/
structure Course where
  courseid : String
  coursename : String
  instructor : Option String := none
  students : List String := []
deriving DecidableEq, Repr

/-- `SchoolSystem` from `school.py`: the in-memory relationship graph. -/
structure SchoolSystem where
  students : List Student := []
  instructors : List Instructor := []
  courses : List Course := []
deriving DecidableEq, Repr

/-- `SchoolSystem.findstudent`: first student whose id matches. -/
def SchoolSystem.findstudent (sys : SchoolSystem) (sid : String) : Option Student :=
  sys.students.find? fun s => s.studentid == sid

/-- `SchoolSystem.findinstructor`: first instructor whose id matches. -/
def SchoolSystem.findinstructor (sys : SchoolSystem) (iid : String) : Option Instructor :=
  sys.instructors.find? fun i => i.instructorid == iid

/-- `SchoolSystem.findcourse`: first course whose id matches. -/
def SchoolSystem.findcourse (sys : SchoolSystem) (cid : String) : Option Course :=
  sys.courses.find? fun c => c.courseid == cid

/-- `SchoolSystem.addstudent`: append unless the id is taken. -/
def SchoolSystem.addstudent (sys : SchoolSystem) (s : Student) : Bool × SchoolSystem :=
  if (sys.findstudent s.studentid).isSome then (false, sys)
  else (true, { sys with students := sys.students ++ [s] })

/-- `SchoolSystem.addinstructor`: append unless the id is taken. -/
def SchoolSystem.addinstructor (sys : SchoolSystem) (i : Instructor) : Bool × SchoolSystem :=
  if (sys.findinstructor i.instructorid).isSome then (false, sys)
  else (true, { sys with instructors := sys.instructors ++ [i] })

/-- `SchoolSystem.addcourse`: append unless the id is taken. -/
def SchoolSystem.addcourse (sys : SchoolSystem) (c : Course) : Bool × SchoolSystem :=
  if (sys.findcourse c.courseid).isSome then (false, sys)
  else (true, { sys with courses := sys.courses ++ [c] })

/-- `SchoolSystem.removestudent`: drop the student from every course's
enrollment list, then from the primary collection. -/
def SchoolSystem.removestudent (sys : SchoolSystem) (sid : String) : Bool × SchoolSystem :=
  match sys.findstudent sid with
  | none => (false, sys)
  | some s =>
    (true,
      { sys with
        courses := sys.courses.map fun c =>
          if s.studentid ∈ c.students then { c with students := c.students.erase s.studentid }
          else c
        students := eraseFirstBy (fun t => t.studentid == s.studentid) sys.students })

/-- `SchoolSystem.removeinstructor`: null the instructor reference on every
course that holds it, then drop the instructor. -/
def SchoolSystem.removeinstructor (sys : SchoolSystem) (iid : String) : Bool × SchoolSystem :=
  match sys.findinstructor iid with
  | none => (false, sys)
  | some i =>
    (true,
      { sys with
        courses := sys.courses.map fun c =>
          if c.instructor == some i.instructorid then { c with instructor := none } else c
        instructors := eraseFirstBy (fun j => j.instructorid == i.instructorid) sys.instructors })

/-- `SchoolSystem.removecourse`: drop the course from every student's list
and from its (current) instructor's list, then from the primary collection. -/
def SchoolSystem.removecourse (sys : SchoolSystem) (cid : String) : Bool × SchoolSystem :=
  match sys.findcourse cid with
  | none => (false, sys)
  | some c =>
    let students := sys.students.map fun s =>
      if c.courseid ∈ s.courses then { s with courses := s.courses.erase c.courseid } else s
    let instructors :=
      match c.instructor with
      | none => sys.instructors
      | some iid =>
        updateFirstBy (fun j => j.instructorid == iid)
          (fun j => if c.courseid ∈ j.courses then { j with courses := j.courses.erase c.courseid } else j)
          sys.instructors
    (true,
      { sys with
        students := students
        instructors := instructors
        courses := eraseFirstBy (fun d => d.courseid == c.courseid) sys.courses })

/-- `SchoolSystem.assign`: set the instructor on the course and link the
instructor's own course list (`Instructor.take`). -/
def SchoolSystem.assign (sys : SchoolSystem) (iid cid : String) : Bool × SchoolSystem :=
  match sys.findinstructor iid, sys.findcourse cid with
  | some i, some c =>
    if c.instructor == some i.instructorid then (false, sys)
    else
      (true,
        { sys with
          courses := updateFirstBy (fun d => d.courseid == c.courseid)
            (fun d => { d with instructor := some i.instructorid }) sys.courses
          instructors := updateFirstBy (fun j => j.instructorid == i.instructorid)
            (fun j => if c.courseid ∈ j.courses then j else { j with courses := j.courses ++ [c.courseid] })
            sys.instructors })
  | _, _ => (false, sys)

/-- A search result row `(Type, Name, Code, Info)` as produced by
`SchoolSystem.search`. -/
structure Row where
  kind : String
  name : String
  id : String
  info : String
deriving DecidableEq, Repr

/-- Display name of a course id in `", ".join(c.coursename for c in ...)`;
ids are resolved through the registry (in Python the list holds the live
object, which inside the registry is the course found by id). -/
def SchoolSystem.coursenameOf (sys : SchoolSystem) (cid : String) : String :=
  match sys.findcourse cid with
  | some c => c.coursename
  | none => ""

/-- Display name of a student id (see `coursenameOf`). -/
def SchoolSystem.studentnameOf (sys : SchoolSystem) (sid : String) : String :=
  match sys.findstudent sid with
  | some s => s.name
  | none => ""

/-- The `inst_name` computed for each course row in `SchoolSystem.search`
(`c.instructor.name if c.instructor else "None"`). -/
def SchoolSystem.instNameOf (sys : SchoolSystem) (c : Course) : String :=
  match c.instructor with
  | none => "None"
  | some iid =>
    match sys.findinstructor iid with
    | some i => i.name
    | none => "None"

/-- Row built for a matching student. -/
def SchoolSystem.studentRow (sys : SchoolSystem) (s : Student) : Row :=
  { kind := "Student", name := s.name, id := s.studentid
    info := joinSep ", " (s.courses.map sys.coursenameOf) }

/-- Row built for a matching instructor. -/
def SchoolSystem.instructorRow (sys : SchoolSystem) (i : Instructor) : Row :=
  { kind := "Instructor", name := i.name, id := i.instructorid
    info := joinSep ", " (i.courses.map sys.coursenameOf) }

/-- Row built for a matching course. -/
def SchoolSystem.courseRow (sys : SchoolSystem) (c : Course) : Row :=
  { kind := "Course", name := c.coursename, id := c.courseid
    info := "Instructor: " ++ sys.instNameOf c ++ "; Students: "
      ++ joinSep ", " (c.students.map sys.studentnameOf) }

/-- The per-student match test of `SchoolSystem.search`
(`any(q in str(x).lower() for x in (s.name, s.email, s.studentid))`). -/
def studentMatch (qn : List Char) (s : Student) : Bool :=
  isSubstr qn (lowerData s.name) || isSubstr qn (lowerData s.email)
    || isSubstr qn (lowerData s.studentid)

/-- The per-instructor match test of `SchoolSystem.search`. -/
def instructorMatch (qn : List Char) (i : Instructor) : Bool :=
  isSubstr qn (lowerData i.name) || isSubstr qn (lowerData i.email)
    || isSubstr qn (lowerData i.instructorid)

/-- The per-course match test of `SchoolSystem.search`: course name, course
id, or the instructor display name (`inst_name`). -/
def courseMatch (sys : SchoolSystem) (qn : List Char) (c : Course) : Bool :=
  isSubstr qn (lowerData c.coursename) || isSubstr qn (lowerData c.courseid)
    || isSubstr qn (lowerData (sys.instNameOf c))

/-- `SchoolSystem.search`: strip and lowercase the query, then collect one
row per matching student, instructor and course, in that order. -/
def SchoolSystem.search (sys : SchoolSystem) (q : String) : List Row :=
  let qn := (pyStrip q.data).map Char.toLower
  (sys.students.filter (studentMatch qn)).map sys.studentRow
    ++ (sys.instructors.filter (instructorMatch qn)).map sys.instructorRow
    ++ (sys.courses.filter (courseMatch sys qn)).map sys.courseRow

/-- `SchoolSystem.register`: enroll the student in the course and link both
sides (`Course.addstudent` then `Student.enroll`). -/
def SchoolSystem.register (sys : SchoolSystem) (sid cid : String) : Bool × SchoolSystem :=
  match sys.findstudent sid, sys.findcourse cid with
  | some s, some c =>
    if s.studentid ∈ c.students then (false, sys)
    else
      (true,
        { sys with
          courses := updateFirstBy (fun d => d.courseid == c.courseid)
            (fun d => if s.studentid ∈ d.students then d else { d with students := d.students ++ [s.studentid] })
            sys.courses
          students := updateFirstBy (fun t => t.studentid == s.studentid)
            (fun t => if c.courseid ∈ t.courses then t else { t with courses := t.courses ++ [c.courseid] })
            sys.students })
  | _, _ => (false, sys)

end Tk

/-! ## C4 and C5: uniqueness-guarded add, and registration -/

/-- Concrete system used by the C4 witness. -/
def c4sysW : Tk.SchoolSystem :=
  { students := [{ name := "Alice", age := 20, email := "alice@x.com", studentid := "S1" }] }

/-- Second student with the already-used id `"S1"` but a different name. -/
def c4bob : Tk.Student := { name := "Bob", age := 21, email := "bob@x.com", studentid := "S1" }

/-- Fresh instructor and course used by the C4 witness. -/
def c4ins : Tk.Instructor := { name := "Ada", age := 40, email := "ada@x.com", instructorid := "I1" }

/-- Fresh course used by the C4 witness. -/
def c4crs : Tk.Course := { courseid := "C1", coursename := "Algorithms" }

/-- Concrete system used by the C5 witness. -/
def c5sysW : Tk.SchoolSystem :=
  { students := [{ name := "Sam", age := 20, email := "sam@x.com", studentid := "S1" }]
    courses := [{ courseid := "C1", coursename := "Algorithms" }] }

/-- The student row of `c5sysW`. -/
def c5sW : Tk.Student := { name := "Sam", age := 20, email := "sam@x.com", studentid := "S1" }

/-- The course row of `c5sysW`. -/
def c5cW : Tk.Course := { courseid := "C1", coursename := "Algorithms" }

/-! ## C9: blank queries match everything -/

/-- Concrete system used by the C9 witness. -/
def c9sysW : Tk.SchoolSystem :=
  { students := [{ name := "Sam", age := 20, email := "sam@x.com", studentid := "S1" }]
    instructors := [{ name := "Ada", age := 40, email := "ada@x.com", instructorid := "I1" }]
    courses := [{ courseid := "C1", coursename := "Algorithms" }] }

/-! ## C7: which fields `search` matches on -/

/-- Ids of the `kind = "Student"` rows of a search result. -/
def studentRowIds (rows : List Tk.Row) : List String :=
  (rows.filter fun r => r.kind == "Student").map Tk.Row.id

/-- Ids of the `kind = "Instructor"` rows of a search result. -/
def instructorRowIds (rows : List Tk.Row) : List String :=
  (rows.filter fun r => r.kind == "Instructor").map Tk.Row.id

/-- Ids of the `kind = "Course"` rows of a search result. -/
def courseRowIds (rows : List Tk.Row) : List String :=
  (rows.filter fun r => r.kind == "Course").map Tk.Row.id

/-- System with a course whose name and id do not contain `"ada"`, taught by
instructor `"Ada"`. -/
def c7sysW : Tk.SchoolSystem :=
  { instructors := [{ name := "Ada", age := 40, email := "ada@x.com", instructorid := "I1" }]
    courses := [{ courseid := "C1", coursename := "Algorithms", instructor := some "I1" }] }

namespace Tk

/-- Public operations of the relationship graph, as data; `add*` operations
create fresh entities from validated raw fields (with empty relationship
lists, as the constructors build them). -/
inductive Op where
  | addStudent (name : String) (age : Int) (email sid : String)
  | addInstructor (name : String) (age : Int) (email iid : String)
  | addCourse (cid cname : String)
  | removeStudent (sid : String)
  | removeInstructor (iid : String)
  | removeCourse (cid : String)
  | register (sid cid : String)
  | assign (iid cid : String)
deriving DecidableEq, Repr

/-- Apply one public operation (the state part; the returned Bool is
dropped). -/
def applyOp (sys : SchoolSystem) : Op → SchoolSystem
  | .addStudent n a e sid => (sys.addstudent { name := n, age := a, email := e, studentid := sid }).2
  | .addInstructor n a e iid =>
    (sys.addinstructor { name := n, age := a, email := e, instructorid := iid }).2
  | .addCourse cid cname => (sys.addcourse { courseid := cid, coursename := cname }).2
  | .removeStudent sid => (sys.removestudent sid).2
  | .removeInstructor iid => (sys.removeinstructor iid).2
  | .removeCourse cid => (sys.removecourse cid).2
  | .register sid cid => (sys.register sid cid).2
  | .assign iid cid => (sys.assign iid cid).2

/-- Run a sequence of public operations from the empty graph: the graphs
reachable via the public operations are exactly the values of `run`. -/
def run (ops : List Op) : SchoolSystem := ops.foldl applyOp {}

/-- Ids are unique within each entity kind. -/
def WellFormed (sys : SchoolSystem) : Prop :=
  (sys.students.map Student.studentid).Nodup ∧
  (sys.instructors.map Instructor.instructorid).Nodup ∧
  (sys.courses.map Course.courseid).Nodup

/-- Every non-null course instructor reference points to an instructor in
the graph whose assignment list contains the course. -/
def instructorRefOk (sys : SchoolSystem) : Prop :=
  ∀ c ∈ sys.courses, ∀ iid, c.instructor = some iid →
    ∃ i ∈ sys.instructors, i.instructorid = iid ∧ c.courseid ∈ i.courses

end Tk

/-- Reassigning course `C1` from instructor `I1` to `I2`. -/
def c6ops : List Tk.Op :=
  [.addInstructor "Ada" 40 "ada@x.com" "I1",
   .addInstructor "Bob" 45 "bob@x.com" "I2",
   .addCourse "C1" "Algorithms",
   .assign "I1" "C1",
   .assign "I2" "C1"]

/-! ## `Doc`: embedding of `documented proj/school_management.py` -/

namespace Doc

/-- Character class `[a-zA-Z0-9._%+-]` of the email regex's local part. -/
def isLocalChar (c : Char) : Bool :=
  c.isAlpha || c.isDigit || c == '.' || c == '_' || c == '%' || c == '+' || c == '-'

/-- Character class `[a-zA-Z0-9.-]` of the email regex's domain part. -/
def isDomainChar (c : Char) : Bool :=
  c.isAlpha || c.isDigit || c == '.' || c == '-'

/-- Matcher for the suffix regex `[a-zA-Z0-9.-]+\.[a-zA-Z]{2,}$`: some split
point `j` has a nonempty domain-char prefix, a literal dot, and an
alphabetic tail of length at least 2 running to the end. -/
def matchTail (r : List Char) : Bool :=
  (List.range r.length).any fun j =>
    decide (r.take j ≠ []) && (r.take j).all isDomainChar &&
      (match r.drop j with
       | c :: t => c == '.' && (decide (2 ≤ t.length) && t.all Char.isAlpha)
       | [] => false)

/-- `Person._validate_email`: matcher for
`^[a-zA-Z0-9._%+-]+@[a-zA-Z0-9.-]+\.[a-zA-Z]{2,}$` on the whole string. -/
def validate_email (email : String) : Bool :=
  (List.range email.data.length).any fun i =>
    decide (email.data.take i ≠ []) && (email.data.take i).all isLocalChar &&
      (match email.data.drop i with
       | c :: rest => c == '@' && matchTail rest
       | [] => false)

/-- The spec's wording of the email contract: `local@domain.tld` with ASCII
local and domain parts, a dot in the domain, and a TLD of at least two
letters. -/
def EmailSpec (email : String) : Prop :=
  ∃ L D T : List Char,
    email.data = L ++ '@' :: (D ++ '.' :: T) ∧
    L ≠ [] ∧ L.all isLocalChar = true ∧
    D ≠ [] ∧ D.all isDomainChar = true ∧
    2 ≤ T.length ∧ T.all Char.isAlpha = true

/-- `Person._validate_name`: nonempty after stripping whitespace. -/
def validate_name (name : String) : Bool := decide (pyStrip name.data ≠ [])

/-- `Person._validate_age`: a non-negative integer. -/
def validate_age (age : Int) : Bool := decide (0 ≤ age)

/-- `Student._validate_student_id`: nonempty after stripping whitespace. -/
def validate_student_id (sid : String) : Bool := decide (pyStrip sid.data ≠ [])

/-- `Instructor._validate_instructor_id`: nonempty after stripping
whitespace. -/
def validate_instructor_id (iid : String) : Bool := decide (pyStrip iid.data ≠ [])

/-- `Course._validate_course_id`: nonempty after stripping whitespace. -/
def validate_course_id (cid : String) : Bool := decide (pyStrip cid.data ≠ [])

/-- `Course._validate_course_name`: nonempty after stripping whitespace. -/
def validate_course_name (cn : String) : Bool := decide (pyStrip cn.data ≠ [])

/-- `Person` of the documented project (`_email` kept as `email`). -/
structure Person where
  name : String
  age : Int
  email : String
deriving DecidableEq, Repr

/-- `Person.__init__`: validate name, age, email in that order. -/
def Person.init (name : String) (age : Int) (email : String) : Except String Person :=
  if ¬ validate_name name then .error "Name must be a non-empty string"
  else if ¬ validate_age age then .error "Age must be a non-negative integer"
  else if ¬ validate_email email then .error "Invalid email format"
  else .ok { name := name, age := age, email := email }

/-- `Student` of the documented project (`registered_courses` holds course
ids). -/
structure Student where
  name : String
  age : Int
  email : String
  student_id : String
  registered_courses : List String := []
deriving DecidableEq, Repr

/-- `Student.__init__`: `Person.__init__` then the id check. -/
def Student.init (name : String) (age : Int) (email sid : String) : Except String Student :=
  match Person.init name age email with
  | .error e => .error e
  | .ok p =>
    if ¬ validate_student_id sid then .error "Student ID must be a non-empty string"
    else .ok { name := p.name, age := p.age, email := p.email, student_id := sid }

/-- `Instructor` of the documented project (`assigned_courses` holds course
ids). -/
structure Instructor where
  name : String
  age : Int
  email : String
  instructor_id : String
  assigned_courses : List String := []
deriving DecidableEq, Repr

/-- `Instructor.__init__`: `Person.__init__` then the id check. -/
def Instructor.init (name : String) (age : Int) (email iid : String) :
    Except String Instructor :=
  match Person.init name age email with
  | .error e => .error e
  | .ok p =>
    if ¬ validate_instructor_id iid then .error "Instructor ID must be a non-empty string"
    else .ok { name := p.name, age := p.age, email := p.email, instructor_id := iid }

/-- `Course` of the documented project (`instructor` holds an instructor id,
`enrolled_students` student ids). -/
structure Course where
  course_id : String
  course_name : String
  instructor : Option String := none
  enrolled_students : List String := []
deriving DecidableEq, Repr

/-- `SchoolManagementSystem` of the documented project. -/
structure Sms where
  students : List Student := []
  instructors : List Instructor := []
  courses : List Course := []
deriving DecidableEq, Repr

/-- `SchoolManagementSystem.add_student`: unconditional append. -/
def Sms.add_student (sys : Sms) (s : Student) : Sms :=
  { sys with students := sys.students ++ [s] }

/-- `SchoolManagementSystem.add_instructor`: unconditional append. -/
def Sms.add_instructor (sys : Sms) (i : Instructor) : Sms :=
  { sys with instructors := sys.instructors ++ [i] }

/-- `SchoolManagementSystem.add_course`: unconditional append. -/
def Sms.add_course (sys : Sms) (c : Course) : Sms :=
  { sys with courses := sys.courses ++ [c] }

/-- `find_student_by_id`: first student whose id matches. -/
def Sms.find_student_by_id (sys : Sms) (sid : String) : Option Student :=
  sys.students.find? fun s => s.student_id == sid

/-- `find_instructor_by_id`: first instructor whose id matches. -/
def Sms.find_instructor_by_id (sys : Sms) (iid : String) : Option Instructor :=
  sys.instructors.find? fun i => i.instructor_id == iid

/-- `find_course_by_id`: first course whose id matches. -/
def Sms.find_course_by_id (sys : Sms) (cid : String) : Option Course :=
  sys.courses.find? fun c => c.course_id == cid

end Doc

namespace Tk

/-- Character class `[^@\s]` of the tkinter email regex. -/
def nonAtWs (c : Char) : Bool := ¬(c == '@') && ¬ c.isWhitespace

/-- tkinter `school.py` `_email_re`: `^[^@\s]+@[^@\s]+\.[^@\s]+$`. -/
def tkEmailMatch (email : String) : Bool :=
  (List.range email.data.length).any fun i =>
    decide (email.data.take i ≠ []) && (email.data.take i).all nonAtWs &&
      (match email.data.drop i with
       | c :: rest =>
         c == '@' &&
           ((List.range rest.length).any fun j =>
             decide (rest.take j ≠ []) && (rest.take j).all nonAtWs &&
               (match rest.drop j with
                | d :: t => d == '.' && (decide (t ≠ []) && t.all nonAtWs)
                | [] => false))
       | [] => false)

/-- `school.py` `Person.__init__` validation: only the empty name is
rejected (blank names pass), negative ages are rejected, and the email is
checked against `_email_re` only when it is nonempty. -/
def personValid (name : String) (age : Int) (email : String) : Bool :=
  ¬(name == "") && decide (0 ≤ age) && (email == "" || tkEmailMatch email)

end Tk

/-! ## `Db`: embedding of `documented proj/database_manager.py`

The SQLite store.  Python's `sqlite3` never has `PRAGMA foreign_keys = ON`
issued by this code, so foreign keys — including `ON DELETE CASCADE` on
`student_course_registrations` and `ON DELETE SET NULL` on `courses` — are
NOT enforced; only primary keys, `UNIQUE` and `CHECK` constraints fire.
Timestamps and the AUTOINCREMENT registration id are not modelled. -/

namespace Db

/-- A row of the `students` table. -/
structure StudentRow where
  student_id : String
  name : String
  age : Int
  email : String
deriving DecidableEq, Repr

/-- A row of the `instructors` table. -/
structure InstructorRow where
  instructor_id : String
  name : String
  age : Int
  email : String
deriving DecidableEq, Repr

/-- A row of the `courses` table. -/
structure CourseRow where
  course_id : String
  course_name : String
  instructor_id : Option String
deriving DecidableEq, Repr

/-- A row of the `student_course_registrations` table. -/
structure RegRow where
  student_id : String
  course_id : String
deriving DecidableEq, Repr

/-- The four tables. -/
structure Store where
  students : List StudentRow := []
  instructors : List InstructorRow := []
  courses : List CourseRow := []
  registrations : List RegRow := []
deriving DecidableEq, Repr

/-- `INSERT INTO students`: fails (IntegrityError) on a duplicate primary
key, a duplicate email (UNIQUE) or a negative age (CHECK). -/
def insertStudentRow (st : Store) (r : StudentRow) : Except Unit Store :=
  if st.students.any (fun x => x.student_id == r.student_id)
      || st.students.any (fun x => x.email == r.email)
      || decide (r.age < 0) then .error ()
  else .ok { st with students := st.students ++ [r] }

/-- `INSERT INTO instructors`: same constraints as students. -/
def insertInstructorRow (st : Store) (r : InstructorRow) : Except Unit Store :=
  if st.instructors.any (fun x => x.instructor_id == r.instructor_id)
      || st.instructors.any (fun x => x.email == r.email)
      || decide (r.age < 0) then .error ()
  else .ok { st with instructors := st.instructors ++ [r] }

/-- `INSERT INTO courses`: only the primary key can fail (the instructor
foreign key is not enforced). -/
def insertCourseRow (st : Store) (r : CourseRow) : Except Unit Store :=
  if st.courses.any (fun x => x.course_id == r.course_id) then .error ()
  else .ok { st with courses := st.courses ++ [r] }

/-- `INSERT INTO student_course_registrations`: fails on a duplicate
`(student_id, course_id)` pair (UNIQUE); the two foreign keys are not
enforced. -/
def insertRegRow (st : Store) (r : RegRow) : Except Unit Store :=
  if st.registrations.any
      (fun x => x.student_id == r.student_id && x.course_id == r.course_id) then .error ()
  else .ok { st with registrations := st.registrations ++ [r] }

/-- `DELETE FROM student_course_registrations` (first delete of the sync). -/
def deleteAllRegistrations (st : Store) : Store := { st with registrations := [] }

/-- `DELETE FROM courses` (second delete of the sync). -/
def deleteAllCourses (st : Store) : Store := { st with courses := [] }

/-- `DELETE FROM instructors` (third delete of the sync). -/
def deleteAllInstructors (st : Store) : Store := { st with instructors := [] }

/-- `DELETE FROM students` (fourth delete of the sync). -/
def deleteAllStudents (st : Store) : Store := { st with students := [] }

/-- Row written for a student by the sync/insert statements. -/
def rowOfStudent (s : Doc.Student) : StudentRow :=
  { student_id := s.student_id, name := s.name, age := s.age, email := s.email }

/-- Row written for an instructor. -/
def rowOfInstructor (i : Doc.Instructor) : InstructorRow :=
  { instructor_id := i.instructor_id, name := i.name, age := i.age, email := i.email }

/-- Row written for a course
(`course.instructor.instructor_id if course.instructor else None`). -/
def rowOfCourse (c : Doc.Course) : CourseRow :=
  { course_id := c.course_id, course_name := c.course_name, instructor_id := c.instructor }

/-- The registration rows written for the whole system, in write order. -/
def regRowsOf (sys : Doc.Sms) : List RegRow :=
  sys.students.flatMap fun s =>
    s.registered_courses.map fun cid => { student_id := s.student_id, course_id := cid }

/-- The insert half of `sync_system_to_db`: students, then instructors, then
courses, then registrations, each statement failing the whole transaction on
an integrity violation. -/
def syncInserts (st : Store) (sys : Doc.Sms) : Except Unit Store := do
  let st1 ← sys.students.foldlM (fun st s => insertStudentRow st (rowOfStudent s)) st
  let st2 ← sys.instructors.foldlM (fun st i => insertInstructorRow st (rowOfInstructor i)) st1
  let st3 ← sys.courses.foldlM (fun st c => insertCourseRow st (rowOfCourse c)) st2
  sys.students.foldlM
    (fun st s =>
      s.registered_courses.foldlM
        (fun st cid => insertRegRow st { student_id := s.student_id, course_id := cid }) st)
    st3

/-- `DatabaseManager.sync_system_to_db`: one transaction deleting
registrations, courses, instructors, students (in that order) and then
inserting students, instructors, courses, registrations (in that order);
an exception rolls the whole transaction back (`with sqlite3.connect`
commits on success and rolls back on error), leaving the store unchanged. -/
def sync_system_to_db (st : Store) (sys : Doc.Sms) : Bool × Store :=
  match syncInserts
      (deleteAllStudents (deleteAllInstructors (deleteAllCourses (deleteAllRegistrations st))))
      sys with
  | .ok st2 => (true, st2)
  | .error _ => (false, st)

/-- The store contents `sync_system_to_db` writes on success. -/
def storeOfSystem (sys : Doc.Sms) : Store :=
  { students := sys.students.map rowOfStudent
    instructors := sys.instructors.map rowOfInstructor
    courses := sys.courses.map rowOfCourse
    registrations := regRowsOf sys }

/-- `DatabaseManager.delete_course`: a single `DELETE FROM courses WHERE
course_id = ?`; with foreign keys unenforced the registrations referencing
the course are NOT cascaded and remain in the store. -/
def delete_course (st : Store) (cid : String) : Bool × Store :=
  (st.courses.any fun c => c.course_id == cid,
    { st with courses := st.courses.filter fun c => ¬(c.course_id == cid) })

/-- The field application of a partial student update. -/
def applyStudentUpd (name : Option String) (age : Option Int) (email : Option String)
    (r : StudentRow) : StudentRow :=
  { r with name := name.getD r.name, age := age.getD r.age, email := email.getD r.email }

/-- Would the `UPDATE students` statement hit a CHECK or UNIQUE violation?
A hit row violates when its new age is negative or its new email equals the
email of some other (non-hit) row. -/
def studentUpdateViolates (st : Store) (sid : String) (upd : StudentRow → StudentRow) : Bool :=
  st.students.any fun r =>
    r.student_id == sid &&
      (decide ((upd r).age < 0) ||
        st.students.any fun r2 => ¬(r2.student_id == sid) && r2.email == (upd r).email)

/-- `DatabaseManager.update_student`: dynamic partial update.  With no
fields supplied nothing is executed and it returns `True`; otherwise the
`UPDATE` hits the rows matching the id (constraint violations roll back and
return `False`) and the result is `rowcount > 0`. -/
def update_student (st : Store) (sid : String) (name : Option String)
    (age : Option Int) (email : Option String) : Bool × Store :=
  if name = none ∧ age = none ∧ email = none then (true, st)
  else if studentUpdateViolates st sid (applyStudentUpd name age email) then (false, st)
  else
    (st.students.any fun r => r.student_id == sid,
      { st with students := st.students.map fun r =>
        if r.student_id == sid then applyStudentUpd name age email r else r })

/-- The field application of a partial instructor update. -/
def applyInstructorUpd (name : Option String) (age : Option Int) (email : Option String)
    (r : InstructorRow) : InstructorRow :=
  { r with name := name.getD r.name, age := age.getD r.age, email := email.getD r.email }

/-- CHECK/UNIQUE violation test for `UPDATE instructors`. -/
def instructorUpdateViolates (st : Store) (iid : String)
    (upd : InstructorRow → InstructorRow) : Bool :=
  st.instructors.any fun r =>
    r.instructor_id == iid &&
      (decide ((upd r).age < 0) ||
        st.instructors.any fun r2 => ¬(r2.instructor_id == iid) && r2.email == (upd r).email)

/-- `DatabaseManager.update_instructor`: same shape as `update_student`. -/
def update_instructor (st : Store) (iid : String) (name : Option String)
    (age : Option Int) (email : Option String) : Bool × Store :=
  if name = none ∧ age = none ∧ email = none then (true, st)
  else if instructorUpdateViolates st iid (applyInstructorUpd name age email) then (false, st)
  else
    (st.instructors.any fun r => r.instructor_id == iid,
      { st with instructors := st.instructors.map fun r =>
        if r.instructor_id == iid then applyInstructorUpd name age email r else r })

/-- `DatabaseManager.update_course`: partial update of name/instructor; the
courses table has no UNIQUE or CHECK constraint and the foreign key is not
enforced, so with at least one field it simply reports `rowcount > 0`. -/
def update_course (st : Store) (cid : String) (course_name : Option String)
    (instructor_id : Option String) : Bool × Store :=
  if course_name = none ∧ instructor_id = none then (true, st)
  else
    (st.courses.any fun r => r.course_id == cid,
      { st with courses := st.courses.map fun r =>
        if r.course_id == cid then
          { r with course_name := course_name.getD r.course_name
                   instructor_id := match instructor_id with
                     | none => r.instructor_id
                     | some i => some i }
        else r })

/-- Foreign-key consistency of a store (what the schema's FK constraints
would demand if they were enforced). -/
def fkOk (st : Store) : Prop :=
  (∀ r ∈ st.registrations,
    (∃ s ∈ st.students, s.student_id = r.student_id) ∧
    (∃ c ∈ st.courses, c.course_id = r.course_id)) ∧
  (∀ c ∈ st.courses, ∀ iid, c.instructor_id = some iid →
    ∃ i ∈ st.instructors, i.instructor_id = iid)

end Db

/-! ## C2: course deletion cascade -/

/-- Store with one student, one course and one registration row linking
them. -/
def c2store : Db.Store :=
  { students := [{ student_id := "S1", name := "Sam", age := 20, email := "sam@x.com" }]
    courses := [{ course_id := "C1", course_name := "Algorithms", instructor_id := none }]
    registrations := [{ student_id := "S1", course_id := "C1" }] }

/-- The graph mirroring `c2store`. -/
def c2sys : Tk.SchoolSystem :=
  { students := [{ name := "Sam", age := 20, email := "sam@x.com", studentid := "S1",
                   courses := ["C1"] }]
    courses := [{ courseid := "C1", coursename := "Algorithms", students := ["S1"] }] }

instance (st : Db.Store) : Decidable (Db.fkOk st) := by
  unfold Db.fkOk
  infer_instance

/-- Graph dehydrated by the C3 witness. -/
def c3sysW : Doc.Sms :=
  { students := [{ name := "Sam", age := 20, email := "sam@x.com", student_id := "S1",
                   registered_courses := ["C1"] }]
    instructors := [{ name := "Ada", age := 40, email := "ada@x.com", instructor_id := "I1" }]
    courses := [{ course_id := "C1", course_name := "Algorithms", instructor := some "I1" }] }

namespace Db

/-- `get_all_students`: `SELECT student_id, name, age, email FROM students
ORDER BY name`. -/
def get_all_students (st : Store) : List StudentRow :=
  sortByKey (fun r => r.name) st.students

/-- `get_all_instructors`: same, over instructors. -/
def get_all_instructors (st : Store) : List InstructorRow :=
  sortByKey (fun r => r.name) st.instructors

/-- A row of the `courses LEFT JOIN instructors` query. -/
structure CourseJoin where
  course_id : String
  course_name : String
  instructor_id : Option String
  instructor_name : Option String
deriving DecidableEq, Repr

/-- `get_all_courses`: `LEFT JOIN instructors ON c.instructor_id =
i.instructor_id ORDER BY c.course_name`; a course with no matching
instructor (or a NULL reference) yields one row with NULL instructor
columns. -/
def joinRowsAux (ins : List InstructorRow) (cid cname : String) : Option String → List CourseJoin
  | none => [{ course_id := cid, course_name := cname,
               instructor_id := none, instructor_name := none }]
  | some iid =>
    if (ins.filter fun i => i.instructor_id == iid) = [] then
      [{ course_id := cid, course_name := cname,
         instructor_id := none, instructor_name := none }]
    else
      (ins.filter fun i => i.instructor_id == iid).map fun i =>
        { course_id := cid, course_name := cname,
          instructor_id := some i.instructor_id, instructor_name := some i.name }

def get_all_courses (st : Store) : List CourseJoin :=
  sortByKey (fun r => r.course_name)
    (st.courses.flatMap fun c => joinRowsAux st.instructors c.course_id c.course_name c.instructor_id)

/-- `get_student_courses`: `courses JOIN registrations ON course_id WHERE
student_id = ? ORDER BY course_name`, one `(course_id, course_name)` pair
per join match. -/
def get_student_courses (st : Store) (sid : String) : List (String × String) :=
  sortByKey (fun p => p.2) <| st.courses.flatMap fun c =>
    (st.registrations.filter fun r => r.course_id == c.course_id && r.student_id == sid).map
      fun _ => (c.course_id, c.course_name)

/-- One iteration of the course-loading loop of `load_system_from_db`:
resolve the instructor against the already-loaded instructors, append the
course, and (when resolved) `assign_course` it to that instructor — the
course object is fresh, so the duplicate check always passes and the id is
appended unconditionally. -/
def loadCourseStep (acc : Doc.Sms) (row : CourseJoin) : Doc.Sms :=
  let inst := match row.instructor_id with
    | some iid => acc.find_instructor_by_id iid
    | none => none
  let course : Doc.Course :=
    { course_id := row.course_id, course_name := row.course_name,
      instructor := inst.map (fun i => i.instructor_id) }
  let acc2 := acc.add_course course
  match inst with
  | some i =>
    { acc2 with instructors := (updateFirstBy (fun j => j.instructor_id == i.instructor_id)
        (fun j => { j with assigned_courses := j.assigned_courses ++ [course.course_id] })
        acc2.instructors) }
  | none => acc2

/-- One `register_course` call of the student-loading loop: skip when the
course id does not resolve (`find_course_by_id` fails) or is already
registered; otherwise append it to the student and enroll the student on
the (first) matching course unless already enrolled (`Course.add_student`).
`sid` is the loading student's id. -/
def regStep (sid : String) (p : Doc.Student × List Doc.Course) (rc : String × String) :
    Doc.Student × List Doc.Course :=
  match p.2.find? (fun c => c.course_id == rc.1) with
  | none => p
  | some c =>
    if c.course_id ∈ p.1.registered_courses then p
    else
      ({ p.1 with registered_courses := p.1.registered_courses ++ [c.course_id] },
        updateFirstBy (fun d => d.course_id == c.course_id)
          (fun d => if sid ∈ d.enrolled_students then d
            else { d with enrolled_students := d.enrolled_students ++ [sid] })
          p.2)

/-- One iteration of the student-loading loop of `load_system_from_db`:
create the student, then `register_course` every pair returned by
`get_student_courses`. -/
def loadStudentStep (st : Store) (acc : Doc.Sms) (row : StudentRow) : Doc.Sms :=
  let s0 : Doc.Student :=
    { name := row.name, age := row.age, email := row.email,
      student_id := row.student_id }
  let pair := (get_student_courses st row.student_id).foldl (regStep row.student_id)
    (s0, acc.courses)
  { acc with students := acc.students ++ [pair.1], courses := pair.2 }

/-- The system as it stands after the instructor-loading loop of
`load_system_from_db`: every instructor row becomes a fresh `Instructor`. -/
def loadBase (st : Store) : Doc.Sms :=
  { instructors := (get_all_instructors st).map fun r =>
      { name := r.name, age := r.age, email := r.email, instructor_id := r.instructor_id } }

/-- The system after the instructor- and course-loading loops. -/
def loadCourses (st : Store) : Doc.Sms :=
  (get_all_courses st).foldl loadCourseStep (loadBase st)

/-- `DatabaseManager.load_system_from_db`: load all instructors, then all
courses (linking instructors both ways), then all students with their
registrations (linking courses both ways). -/
def load_system_from_db (st : Store) : Doc.Sms :=
  (get_all_students st).foldl (loadStudentStep st) (loadCourses st)

/-- Resolution of an optional instructor reference against a list of known
ids (what the course loader's `find_instructor_by_id` amounts to). -/
def resolveRef (ids : List String) : Option String → Option String
  | none => none
  | some iid => if iid ∈ ids then some iid else none

end Db

/-- The `(student, course)` registration edge set of a graph, as a
membership predicate. -/
def Doc.Sms.regEdge (g : Doc.Sms) (sid cid : String) : Prop :=
  ∃ s ∈ g.students, s.student_id = sid ∧ cid ∈ s.registered_courses

/-- The `(course, instructor)` assignment pairs of a graph. -/
def Doc.Sms.assignPairs (g : Doc.Sms) : List (String × Option String) :=
  g.courses.map fun c => (c.course_id, c.instructor)

/-- The course id list of a graph. -/
def Doc.Sms.courseIds (g : Doc.Sms) : List String :=
  g.courses.map Doc.Course.course_id

/-- The student id list of a graph. -/
def Doc.Sms.studentIds (g : Doc.Sms) : List String :=
  g.students.map Doc.Student.student_id

/-- The instructor id list of a graph. -/
def Doc.Sms.instructorIds (g : Doc.Sms) : List String :=
  g.instructors.map Doc.Instructor.instructor_id

/-- An empty store to sync into for the round-trip witness. -/
def c1storeW : Db.Store :=
  { students := [], instructors := [], courses := [], registrations := [] }

/-- A one-of-each graph with closed references for the round-trip witness. -/
def c1sysW : Doc.Sms :=
  { students := [{ name := "Sam", age := 20, email := "sam@x.com", student_id := "S1",
                   registered_courses := ["C1"] }]
    instructors := [{ name := "Ada", age := 40, email := "ada@x.com", instructor_id := "I1" }]
    courses := [{ course_id := "C1", course_name := "Algorithms", instructor := some "I1" }] }

theorem mem_insertK (key : α → String) (x a : α) (l : List α) :
    a ∈ insertK key x l ↔ a = x ∨ a ∈ l := by
  induction l with
  | nil => simp [insertK]
  | cons y ys ih =>
    simp only [insertK]
    split
    · simp
    · simp only [List.mem_cons, ih]
      tauto

theorem mem_sortByKey (key : α → String) (a : α) (l : List α) :
    a ∈ sortByKey key l ↔ a ∈ l := by
  induction l with
  | nil => simp [sortByKey]
  | cons x xs ih => simp [sortByKey, mem_insertK, ih]

/-- The empty pattern is a substring of everything (Python `"" in s`). -/
theorem isSubstr_nil (l : List Char) : isSubstr [] l = true := by
  cases l <;> simp [isSubstr, List.isPrefixOf]

/-- Stripping an all-whitespace string yields the empty string. -/
theorem pyStrip_all_ws (l : List Char) (h : ∀ c ∈ l, c.isWhitespace) :
    pyStrip l = [] := by
  have h1 : l.dropWhile Char.isWhitespace = [] := by
    induction l with
    | nil => rfl
    | cons c cs ih =>
      rw [List.dropWhile_cons]
      simp only [h c (by simp), if_true]
      exact ih fun x hx => h x (by simp [hx])
  simp [pyStrip, h1]

/-! ## Generic lemmas about the list helpers -/

theorem find?_updateFirstBy_self (p : α → Bool) (f : α → α)
    (hf : ∀ x, p x = true → p (f x) = true) (l : List α) :
    List.find? p (updateFirstBy p f l) = (List.find? p l).map f := by
  induction l with
  | nil => rfl
  | cons x xs ih =>
    by_cases h : p x = true
    · rw [updateFirstBy, if_pos h, List.find?_cons_of_pos _ (hf x h),
        List.find?_cons_of_pos _ h, Option.map_some']
    · rw [updateFirstBy, if_neg h,
        List.find?_cons_of_neg _ (by simpa using h),
        List.find?_cons_of_neg _ (by simpa using h), ih]

theorem find?_updateFirstBy_other (p q : α → Bool) (f : α → α)
    (hq : ∀ x, q (f x) = q x) (hdisj : ∀ x, q x = true → p x = false) (l : List α) :
    List.find? q (updateFirstBy p f l) = List.find? q l := by
  induction l with
  | nil => rfl
  | cons x xs ih =>
    by_cases h : p x = true
    · have hqx : q x = false := by
        by_contra hc
        have := hdisj x (by simpa using hc)
        rw [this] at h
        exact Bool.false_ne_true h
      have hqfx : q (f x) = false := (hq x).trans hqx
      rw [updateFirstBy, if_pos h,
        List.find?_cons_of_neg _ (by simp [hqfx]),
        List.find?_cons_of_neg _ (by simp [hqx])]
    · by_cases h2 : q x = true
      · rw [updateFirstBy, if_neg h, List.find?_cons_of_pos _ h2, List.find?_cons_of_pos _ h2]
      · rw [updateFirstBy, if_neg h,
          List.find?_cons_of_neg _ (by simpa using h2),
          List.find?_cons_of_neg _ (by simpa using h2), ih]

theorem map_updateFirstBy (p : α → Bool) (f : α → α) (g : α → β)
    (h : ∀ x, g (f x) = g x) (l : List α) :
    (updateFirstBy p f l).map g = l.map g := by
  induction l with
  | nil => rfl
  | cons x xs ih =>
    by_cases hp : p x = true
    · simp [updateFirstBy, hp, h x]
    · simp [updateFirstBy, hp, ih]

theorem mem_updateFirstBy (p : α → Bool) (f : α → α) (l : List α) (a : α)
    (h : a ∈ updateFirstBy p f l) : a ∈ l ∨ ∃ x ∈ l, p x = true ∧ a = f x := by
  induction l with
  | nil => simp [updateFirstBy] at h
  | cons x xs ih =>
    by_cases hp : p x = true
    · rw [updateFirstBy, if_pos hp] at h
      rcases List.mem_cons.1 h with h1 | h1
      · exact Or.inr ⟨x, by simp, hp, h1⟩
      · exact Or.inl (by simp [h1])
    · rw [updateFirstBy, if_neg hp] at h
      rcases List.mem_cons.1 h with h1 | h1
      · exact Or.inl (by simp [h1])
      · rcases ih h1 with h2 | ⟨y, hy, hpy, hay⟩
        · exact Or.inl (by simp [h2])
        · exact Or.inr ⟨y, by simp [hy], hpy, hay⟩

theorem eraseFirstBy_sublist (p : α → Bool) (l : List α) :
    (eraseFirstBy p l).Sublist l := by
  induction l with
  | nil => simp [eraseFirstBy]
  | cons x xs ih =>
    by_cases hp : p x = true
    · rw [eraseFirstBy, if_pos hp]
      exact List.sublist_cons_self x xs
    · rw [eraseFirstBy, if_neg hp]
      exact List.Sublist.cons₂ x ih

theorem mem_of_mem_eraseFirstBy (p : α → Bool) (l : List α) (a : α)
    (h : a ∈ eraseFirstBy p l) : a ∈ l :=
  (eraseFirstBy_sublist p l).mem h

theorem find?_key_isSome_of_exists (l : List α) (key : α → String) (k : String)
    (h : ∃ x ∈ l, key x = k) : (l.find? fun x => key x == k).isSome = true := by
  by_contra hc
  rw [Bool.not_eq_true] at hc
  have hnone : (l.find? fun x => key x == k) = none := by
    cases hfind : l.find? (fun x => key x == k) with
    | none => rfl
    | some x => rw [hfind] at hc; simp at hc
  rw [List.find?_eq_none] at hnone
  obtain ⟨x, hx, hk⟩ := h
  exact hnone x hx (by simp [hk])

theorem find?_key_eq_none_of_forall (l : List α) (key : α → String) (k : String)
    (h : ∀ x ∈ l, key x ≠ k) : (l.find? fun x => key x == k) = none := by
  rw [List.find?_eq_none]
  intro x hx
  simp only [beq_iff_eq]
  exact h x hx

/-- C4: `addstudent`/`addinstructor`/`addcourse` return `false` and leave the
graph unchanged (hence the first-added entity's fields unchanged) when an
entity of the same kind with the same id already exists; otherwise they
append the entity and return `true`. -/
theorem c4_add_requires_unique_id (sys : Tk.SchoolSystem)
    (s : Tk.Student) (i : Tk.Instructor) (c : Tk.Course) :
    ((∃ s' ∈ sys.students, s'.studentid = s.studentid) →
      sys.addstudent s = (false, sys)) ∧
    ((∀ s' ∈ sys.students, s'.studentid ≠ s.studentid) →
      sys.addstudent s = (true, { sys with students := sys.students ++ [s] })) ∧
    ((∃ i' ∈ sys.instructors, i'.instructorid = i.instructorid) →
      sys.addinstructor i = (false, sys)) ∧
    ((∀ i' ∈ sys.instructors, i'.instructorid ≠ i.instructorid) →
      sys.addinstructor i = (true, { sys with instructors := sys.instructors ++ [i] })) ∧
    ((∃ c' ∈ sys.courses, c'.courseid = c.courseid) →
      sys.addcourse c = (false, sys)) ∧
    ((∀ c' ∈ sys.courses, c'.courseid ≠ c.courseid) →
      sys.addcourse c = (true, { sys with courses := sys.courses ++ [c] })) := by
  refine ⟨fun h => ?_, fun h => ?_, fun h => ?_, fun h => ?_, fun h => ?_, fun h => ?_⟩
  · rw [Tk.SchoolSystem.addstudent, Tk.SchoolSystem.findstudent,
      if_pos (find?_key_isSome_of_exists sys.students Tk.Student.studentid _ h)]
  · rw [Tk.SchoolSystem.addstudent, Tk.SchoolSystem.findstudent,
      find?_key_eq_none_of_forall sys.students Tk.Student.studentid _ h]
    rfl
  · rw [Tk.SchoolSystem.addinstructor, Tk.SchoolSystem.findinstructor,
      if_pos (find?_key_isSome_of_exists sys.instructors Tk.Instructor.instructorid _ h)]
  · rw [Tk.SchoolSystem.addinstructor, Tk.SchoolSystem.findinstructor,
      find?_key_eq_none_of_forall sys.instructors Tk.Instructor.instructorid _ h]
    rfl
  · rw [Tk.SchoolSystem.addcourse, Tk.SchoolSystem.findcourse,
      if_pos (find?_key_isSome_of_exists sys.courses Tk.Course.courseid _ h)]
  · rw [Tk.SchoolSystem.addcourse, Tk.SchoolSystem.findcourse,
      find?_key_eq_none_of_forall sys.courses Tk.Course.courseid _ h]
    rfl

/-- Witness for C4: adding a second student with id `"S1"` fails and leaves
the graph (with the first student's name) unchanged, while a fresh
instructor/course is appended. -/
theorem c4_add_requires_unique_id_witness :
    (∃ s' ∈ c4sysW.students, s'.studentid = c4bob.studentid) ∧
    c4sysW.addstudent c4bob = (false, c4sysW) ∧
    (∀ i' ∈ c4sysW.instructors, i'.instructorid ≠ c4ins.instructorid) ∧
    c4sysW.addinstructor c4ins =
      (true, { c4sysW with instructors := c4sysW.instructors ++ [c4ins] }) :=
  ⟨by decide, (c4_add_requires_unique_id c4sysW c4bob c4ins c4crs).1 (by decide),
    by decide, (c4_add_requires_unique_id c4sysW c4bob c4ins c4crs).2.2.2.1 (by decide)⟩

theorem findstudent_some_id {sys : Tk.SchoolSystem} {sid : String} {s : Tk.Student}
    (h : sys.findstudent sid = some s) : s.studentid = sid := by
  rw [Tk.SchoolSystem.findstudent] at h
  simpa using List.find?_some h

theorem findcourse_some_id {sys : Tk.SchoolSystem} {cid : String} {c : Tk.Course}
    (h : sys.findcourse cid = some c) : c.courseid = cid := by
  rw [Tk.SchoolSystem.findcourse] at h
  simpa using List.find?_some h

theorem findinstructor_some_id {sys : Tk.SchoolSystem} {iid : String} {i : Tk.Instructor}
    (h : sys.findinstructor iid = some i) : i.instructorid = iid := by
  rw [Tk.SchoolSystem.findinstructor] at h
  simpa using List.find?_some h

/-- C5: `register` fails and changes nothing when either id is unknown or the
pair is already linked on the course side; otherwise it returns `true`,
appends the student to the course's enrollment, appends the course to the
student's list unless already present (no duplicate link), and leaves the
instructors and every other student/course untouched. -/
theorem c5_register_links_both_sides (sys : Tk.SchoolSystem) (sid cid : String) :
    ((sys.findstudent sid = none ∨ sys.findcourse cid = none) →
      sys.register sid cid = (false, sys)) ∧
    (∀ s c, sys.findstudent sid = some s → sys.findcourse cid = some c →
      (sid ∈ c.students → sys.register sid cid = (false, sys)) ∧
      (sid ∉ c.students →
        (sys.register sid cid).1 = true ∧
        ((sys.register sid cid).2).instructors = sys.instructors ∧
        ((sys.register sid cid).2).findcourse cid =
          some { c with students := c.students ++ [sid] } ∧
        ((sys.register sid cid).2).findstudent sid =
          some { s with courses := if cid ∈ s.courses then s.courses else s.courses ++ [cid] } ∧
        (∀ cid2, cid2 ≠ cid →
          ((sys.register sid cid).2).findcourse cid2 = sys.findcourse cid2) ∧
        (∀ sid2, sid2 ≠ sid →
          ((sys.register sid cid).2).findstudent sid2 = sys.findstudent sid2))) := by
  constructor
  · intro h
    rcases h with h | h
    · rcases hc : sys.findcourse cid with _ | c <;>
        simp [Tk.SchoolSystem.register, h, hc]
    · rcases hs : sys.findstudent sid with _ | s <;>
        simp [Tk.SchoolSystem.register, h, hs]
  · intro s c hs hc
    have hsid : s.studentid = sid := findstudent_some_id hs
    have hcid : c.courseid = cid := findcourse_some_id hc
    constructor
    · intro hmem
      simp [Tk.SchoolSystem.register, hs, hc, hsid, hmem]
    · intro hmem
      have hreg : sys.register sid cid =
          (true,
            { sys with
              courses := updateFirstBy (fun d => d.courseid == c.courseid)
                (fun d => if s.studentid ∈ d.students then d
                  else { d with students := d.students ++ [s.studentid] }) sys.courses
              students := updateFirstBy (fun t => t.studentid == s.studentid)
                (fun t => if c.courseid ∈ t.courses then t
                  else { t with courses := t.courses ++ [c.courseid] }) sys.students }) := by
        simp only [Tk.SchoolSystem.register, hs, hc, hsid]
        rw [if_neg (by simpa using hmem)]
      refine ⟨by rw [hreg], by rw [hreg], ?_, ?_, ?_, ?_⟩
      · rw [hreg]
        dsimp only [Tk.SchoolSystem.findcourse]
        rw [Tk.SchoolSystem.findcourse] at hc
        rw [← hcid] at hc ⊢
        rw [find?_updateFirstBy_self _ _
          (by intro x hx; split <;> exact hx) sys.courses,
          hc, Option.map_some']
        rw [if_neg (by rw [hsid]; exact hmem), hsid]
      · rw [hreg]
        dsimp only [Tk.SchoolSystem.findstudent]
        rw [Tk.SchoolSystem.findstudent] at hs
        rw [← hsid] at hs ⊢
        rw [find?_updateFirstBy_self _ _
          (by intro x hx; split <;> exact hx) sys.students,
          hs, Option.map_some', hcid]
        split <;> rfl
      · intro cid2 hne
        rw [hreg]
        dsimp only [Tk.SchoolSystem.findcourse]
        exact find?_updateFirstBy_other _ _ _
          (by intro x; split <;> rfl)
          (by
            intro x hx
            simp only [beq_iff_eq] at hx
            simp only [beq_eq_false_iff_ne, ne_eq, hx, hcid]
            exact fun hx2 => hne hx2) sys.courses
      · intro sid2 hne
        rw [hreg]
        dsimp only [Tk.SchoolSystem.findstudent]
        exact find?_updateFirstBy_other _ _ _
          (by intro x; split <;> rfl)
          (by
            intro x hx
            simp only [beq_iff_eq] at hx
            simp only [beq_eq_false_iff_ne, ne_eq, hx, hsid]
            exact fun hx2 => hne hx2) sys.students

/-- Witness for C5: registering an unknown student id fails and changes
nothing; registering the known pair succeeds and links the course side. -/
theorem c5_register_links_both_sides_witness :
    (c5sysW.findstudent "S2" = none ∨ c5sysW.findcourse "C1" = none) ∧
    c5sysW.register "S2" "C1" = (false, c5sysW) ∧
    c5sysW.findstudent "S1" = some c5sW ∧
    c5sysW.findcourse "C1" = some c5cW ∧
    "S1" ∉ c5cW.students ∧
    (c5sysW.register "S1" "C1").1 = true ∧
    ((c5sysW.register "S1" "C1").2).findcourse "C1" =
      some { c5cW with students := c5cW.students ++ ["S1"] } :=
  ⟨by decide,
    (c5_register_links_both_sides c5sysW "S2" "C1").1 (by decide),
    by decide, by decide, by decide,
    (((c5_register_links_both_sides c5sysW "S1" "C1").2 c5sW c5cW (by decide)
      (by decide)).2 (by decide)).1,
    (((c5_register_links_both_sides c5sysW "S1" "C1").2 c5sW c5cW (by decide)
      (by decide)).2 (by decide)).2.2.1⟩

/-- C9: a query that is empty or whitespace-only strips to the empty string,
which is a substring of every field, so `search` returns exactly one row per
student, instructor and course. -/
theorem c9_search_blank_query_lists_everything (sys : Tk.SchoolSystem) (q : String)
    (h : ∀ ch ∈ q.data, ch.isWhitespace) :
    sys.search q =
      sys.students.map sys.studentRow ++ sys.instructors.map sys.instructorRow
        ++ sys.courses.map sys.courseRow := by
  have hq : pyStrip q.data = [] := pyStrip_all_ws q.data h
  have h1 : sys.students.filter (Tk.studentMatch []) = sys.students :=
    List.filter_eq_self.2 fun x _ => by simp [Tk.studentMatch, isSubstr_nil]
  have h2 : sys.instructors.filter (Tk.instructorMatch []) = sys.instructors :=
    List.filter_eq_self.2 fun x _ => by simp [Tk.instructorMatch, isSubstr_nil]
  have h3 : sys.courses.filter (Tk.courseMatch sys []) = sys.courses :=
    List.filter_eq_self.2 fun x _ => by simp [Tk.courseMatch, isSubstr_nil]
  simp only [Tk.SchoolSystem.search, hq, List.map_nil, h1, h2, h3]

/-- Witness for C9 at the whitespace-only query `"  "`. -/
theorem c9_search_blank_query_witness :
    (∀ ch ∈ ("  " : String).data, ch.isWhitespace) ∧
    c9sysW.search "  " =
      c9sysW.students.map c9sysW.studentRow
        ++ c9sysW.instructors.map c9sysW.instructorRow
        ++ c9sysW.courses.map c9sysW.courseRow :=
  ⟨by decide, c9_search_blank_query_lists_everything c9sysW "  " (by decide)⟩

theorem search_row_ids (sys : Tk.SchoolSystem) (q : String) :
    studentRowIds (sys.search q) =
      (sys.students.filter (Tk.studentMatch ((pyStrip q.data).map Char.toLower))).map
        Tk.Student.studentid ∧
    instructorRowIds (sys.search q) =
      (sys.instructors.filter (Tk.instructorMatch ((pyStrip q.data).map Char.toLower))).map
        Tk.Instructor.instructorid ∧
    courseRowIds (sys.search q) =
      (sys.courses.filter (Tk.courseMatch sys ((pyStrip q.data).map Char.toLower))).map
        Tk.Course.courseid := by
  refine ⟨?_, ?_, ?_⟩ <;>
    simp [studentRowIds, instructorRowIds, courseRowIds, Tk.SchoolSystem.search,
      List.filter_append, List.filter_map, Function.comp_def, Tk.SchoolSystem.studentRow,
      Tk.SchoolSystem.instructorRow, Tk.SchoolSystem.courseRow, List.filter_eq_nil_iff,
      List.map_map]

/-- C7 (amended): an entity contributes a search row exactly when the
stripped, lowercased query is a substring of its lowercased name, email or id
(students and instructors), resp. its lowercased course name, course id or
instructor display name (courses). -/
theorem c7_search_match_characterization (sys : Tk.SchoolSystem) (q : String) (eid : String) :
    (eid ∈ studentRowIds (sys.search q) ↔
      ∃ s ∈ sys.students, s.studentid = eid ∧
        Tk.studentMatch ((pyStrip q.data).map Char.toLower) s = true) ∧
    (eid ∈ instructorRowIds (sys.search q) ↔
      ∃ i ∈ sys.instructors, i.instructorid = eid ∧
        Tk.instructorMatch ((pyStrip q.data).map Char.toLower) i = true) ∧
    (eid ∈ courseRowIds (sys.search q) ↔
      ∃ c ∈ sys.courses, c.courseid = eid ∧
        Tk.courseMatch sys ((pyStrip q.data).map Char.toLower) c = true) := by
  obtain ⟨h1, h2, h3⟩ := search_row_ids sys q
  refine ⟨?_, ?_, ?_⟩
  · rw [h1]
    simp only [List.mem_map, List.mem_filter]
    constructor
    · rintro ⟨s, ⟨hmem, hm⟩, hid⟩
      exact ⟨s, hmem, hid, hm⟩
    · rintro ⟨s, hmem, hid, hm⟩
      exact ⟨s, ⟨hmem, hm⟩, hid⟩
  · rw [h2]
    simp only [List.mem_map, List.mem_filter]
    constructor
    · rintro ⟨i, ⟨hmem, hm⟩, hid⟩
      exact ⟨i, hmem, hid, hm⟩
    · rintro ⟨i, hmem, hid, hm⟩
      exact ⟨i, ⟨hmem, hm⟩, hid⟩
  · rw [h3]
    simp only [List.mem_map, List.mem_filter]
    constructor
    · rintro ⟨c, ⟨hmem, hm⟩, hid⟩
      exact ⟨c, hmem, hid, hm⟩
    · rintro ⟨c, hmem, hid, hm⟩
      exact ⟨c, ⟨hmem, hm⟩, hid⟩

/-- Counterexample for C7 as stated: the query `"ada"` is a substring of
neither the course name nor the course id, yet `search` returns the course
row (it also matches the instructor display name). -/
theorem c7_counterexample_instructor_name_matches_course :
    "C1" ∈ courseRowIds (c7sysW.search "ada") ∧
    isSubstr ((pyStrip ("ada" : String).data).map Char.toLower) (lowerData "Algorithms") = false ∧
    isSubstr ((pyStrip ("ada" : String).data).map Char.toLower) (lowerData "C1") = false := by
  decide

/-! ## C6: reachable-state invariant machinery -/

theorem mem_eraseFirstBy_of_not_pred (p : α → Bool) (l : List α) (a : α)
    (ha : a ∈ l) (hp : p a = false) : a ∈ eraseFirstBy p l := by
  induction l with
  | nil => simp at ha
  | cons x xs ih =>
    by_cases hx : p x = true
    · rw [eraseFirstBy, if_pos hx]
      rcases List.mem_cons.1 ha with h1 | h1
      · subst h1; rw [hx] at hp; exact absurd hp (by simp)
      · exact h1
    · rw [eraseFirstBy, if_neg hx]
      rcases List.mem_cons.1 ha with h1 | h1
      · simp [h1]
      · exact List.mem_cons_of_mem x (ih h1)

theorem mem_updateFirstBy_of_not_pred (p : α → Bool) (f : α → α) (l : List α) (a : α)
    (ha : a ∈ l) (hp : p a = false) : a ∈ updateFirstBy p f l := by
  induction l with
  | nil => simp at ha
  | cons x xs ih =>
    by_cases hx : p x = true
    · rw [updateFirstBy, if_pos hx]
      rcases List.mem_cons.1 ha with h1 | h1
      · subst h1; rw [hx] at hp; exact absurd hp (by simp)
      · exact List.mem_cons_of_mem _ h1
    · rw [updateFirstBy, if_neg hx]
      rcases List.mem_cons.1 ha with h1 | h1
      · simp [h1]
      · exact List.mem_cons_of_mem x (ih h1)

theorem mem_updateFirstBy_self_of_nodup_keys (key : α → String) (k : String)
    (f : α → α) (l : List α) (hnd : (l.map key).Nodup) (a : α)
    (ha : a ∈ l) (hk : key a = k) :
    f a ∈ updateFirstBy (fun x => key x == k) f l := by
  induction l with
  | nil => simp at ha
  | cons x xs ih =>
    rw [List.map_cons, List.nodup_cons] at hnd
    by_cases hx : (key x == k) = true
    · rw [updateFirstBy, if_pos hx]
      rcases List.mem_cons.1 ha with h1 | h1
      · subst h1; simp
      · exfalso
        simp only [beq_iff_eq] at hx
        have : key a ∈ xs.map key := List.mem_map_of_mem key h1
        rw [hk, ← hx] at this
        exact hnd.1 this
    · rw [updateFirstBy, if_neg hx]
      rcases List.mem_cons.1 ha with h1 | h1
      · exfalso
        subst h1
        exact hx (by simp [hk])
      · exact List.mem_cons_of_mem x (ih hnd.2 h1)

theorem key_ne_of_mem_eraseFirstBy_nodup (key : α → String) (k : String)
    (l : List α) (hnd : (l.map key).Nodup) (a : α)
    (ha : a ∈ eraseFirstBy (fun x => key x == k) l) : key a ≠ k := by
  induction l with
  | nil => simp [eraseFirstBy] at ha
  | cons x xs ih =>
    rw [List.map_cons, List.nodup_cons] at hnd
    by_cases hx : (key x == k) = true
    · rw [eraseFirstBy, if_pos hx] at ha
      intro hak
      simp only [beq_iff_eq] at hx
      have : key a ∈ xs.map key := List.mem_map_of_mem key ha
      rw [hak, ← hx] at this
      exact hnd.1 this
    · rw [eraseFirstBy, if_neg hx] at ha
      rcases List.mem_cons.1 ha with h1 | h1
      · subst h1; simpa using hx
      · exact ih hnd.2 h1

theorem nodup_append_singleton {l : List String} {a : String} (h : l.Nodup) (ha : a ∉ l) :
    (l ++ [a]).Nodup := by
  simp [List.nodup_append, h, ha]

theorem not_mem_key_of_find?_none (l : List α) (key : α → String) (k : String)
    (h : (l.find? fun x => key x == k) = none) : k ∉ l.map key := by
  rw [List.find?_eq_none] at h
  intro hmem
  obtain ⟨x, hx, hk⟩ := List.mem_map.1 hmem
  exact h x hx (by simp [hk])

theorem map_key_of_map_preserve (key : α → String) (f : α → α) (l : List α)
    (h : ∀ x, key (f x) = key x) : (l.map f).map key = l.map key := by
  rw [List.map_map]
  exact List.map_congr_left fun a _ => h a

theorem instructorRefOk_congr_mem (sys sys' : Tk.SchoolSystem)
    (hi : sys'.instructors = sys.instructors)
    (hc : ∀ c' ∈ sys'.courses, ∃ c ∈ sys.courses,
      c'.courseid = c.courseid ∧ c'.instructor = c.instructor)
    (hRef : Tk.instructorRefOk sys) : Tk.instructorRefOk sys' := by
  intro c' hc' iid hinst
  obtain ⟨c, hcmem, hid, hins⟩ := hc c' hc'
  rw [hins] at hinst
  obtain ⟨i, hi2, hid2, hmem2⟩ := hRef c hcmem iid hinst
  rw [hi, ← hid] at *
  exact ⟨i, hi2, hid2, by rw [hid]; exact hmem2⟩

theorem step_preserves (sys : Tk.SchoolSystem) (o : Tk.Op)
    (hWF : Tk.WellFormed sys) (hRef : Tk.instructorRefOk sys) :
    Tk.WellFormed (Tk.applyOp sys o) ∧ Tk.instructorRefOk (Tk.applyOp sys o) := by
  obtain ⟨hndS, hndI, hndC⟩ := hWF
  cases o with
  | addStudent n a e sid =>
    dsimp only [Tk.applyOp, Tk.SchoolSystem.addstudent]
    split
    · exact ⟨⟨hndS, hndI, hndC⟩, hRef⟩
    case isFalse hfind =>
      have hnone : sys.findstudent sid = none := by
        cases hf : sys.findstudent sid with
        | none => rfl
        | some x => rw [hf] at hfind; simp at hfind
      rw [Tk.SchoolSystem.findstudent] at hnone
      refine ⟨⟨?_, hndI, hndC⟩, ?_⟩
      · rw [List.map_append, List.map_singleton]
        exact nodup_append_singleton hndS
          (not_mem_key_of_find?_none sys.students Tk.Student.studentid sid hnone)
      · exact instructorRefOk_congr_mem sys _ rfl
          (fun c' hc' => ⟨c', hc', rfl, rfl⟩) hRef
  | addInstructor n a e iid =>
    dsimp only [Tk.applyOp, Tk.SchoolSystem.addinstructor]
    split
    · exact ⟨⟨hndS, hndI, hndC⟩, hRef⟩
    case isFalse hfind =>
      have hnone : sys.findinstructor iid = none := by
        cases hf : sys.findinstructor iid with
        | none => rfl
        | some x => rw [hf] at hfind; simp at hfind
      rw [Tk.SchoolSystem.findinstructor] at hnone
      refine ⟨⟨hndS, ?_, hndC⟩, ?_⟩
      · rw [List.map_append, List.map_singleton]
        exact nodup_append_singleton hndI
          (not_mem_key_of_find?_none sys.instructors Tk.Instructor.instructorid iid hnone)
      · intro c hc iid2 hinst
        obtain ⟨i, hi2, hid2, hmem2⟩ := hRef c hc iid2 hinst
        exact ⟨i, List.mem_append_left _ hi2, hid2, hmem2⟩
  | addCourse cid cname =>
    dsimp only [Tk.applyOp, Tk.SchoolSystem.addcourse]
    split
    · exact ⟨⟨hndS, hndI, hndC⟩, hRef⟩
    case isFalse hfind =>
      have hnone : sys.findcourse cid = none := by
        cases hf : sys.findcourse cid with
        | none => rfl
        | some x => rw [hf] at hfind; simp at hfind
      rw [Tk.SchoolSystem.findcourse] at hnone
      refine ⟨⟨hndS, hndI, ?_⟩, ?_⟩
      · rw [List.map_append, List.map_singleton]
        exact nodup_append_singleton hndC
          (not_mem_key_of_find?_none sys.courses Tk.Course.courseid cid hnone)
      · intro c hc iid2 hinst
        rcases List.mem_append.1 hc with h1 | h1
        · obtain ⟨i, hi2, hid2, hmem2⟩ := hRef c h1 iid2 hinst
          exact ⟨i, hi2, hid2, hmem2⟩
        · simp only [List.mem_singleton] at h1
          subst h1
          simp at hinst
  | removeStudent sid =>
    dsimp only [Tk.applyOp, Tk.SchoolSystem.removestudent]
    cases hfs : sys.findstudent sid with
    | none => exact ⟨⟨hndS, hndI, hndC⟩, hRef⟩
    | some s =>
      refine ⟨⟨?_, hndI, ?_⟩, ?_⟩
      · exact ((eraseFirstBy_sublist _ sys.students).map Tk.Student.studentid).nodup hndS
      · rw [map_key_of_map_preserve Tk.Course.courseid _ sys.courses
          (fun c => by split <;> rfl)]
        exact hndC
      · refine instructorRefOk_congr_mem sys _ rfl (fun c' hc' => ?_) hRef
        obtain ⟨c, hcm, hfc⟩ := List.mem_map.1 hc'
        refine ⟨c, hcm, ?_, ?_⟩ <;> rw [← hfc] <;> split <;> rfl
  | removeInstructor iid =>
    dsimp only [Tk.applyOp, Tk.SchoolSystem.removeinstructor]
    cases hfi : sys.findinstructor iid with
    | none => exact ⟨⟨hndS, hndI, hndC⟩, hRef⟩
    | some i0 =>
      refine ⟨⟨hndS, ?_, ?_⟩, ?_⟩
      · exact ((eraseFirstBy_sublist _ sys.instructors).map Tk.Instructor.instructorid).nodup hndI
      · rw [map_key_of_map_preserve Tk.Course.courseid _ sys.courses
          (fun c => by split <;> rfl)]
        exact hndC
      · intro c' hc' iid2 hinst
        obtain ⟨c, hcm, hfc⟩ := List.mem_map.1 hc'
        subst hfc
        by_cases hcond : (c.instructor == some i0.instructorid) = true
        · rw [if_pos hcond] at hinst
          simp at hinst
        · rw [if_neg hcond] at hinst ⊢
          obtain ⟨i, hi2, hid2, hmem2⟩ := hRef c hcm iid2 hinst
          refine ⟨i, ?_, hid2, hmem2⟩
          apply mem_eraseFirstBy_of_not_pred _ _ _ hi2
          simp only [beq_eq_false_iff_ne, ne_eq]
          intro heq
          apply hcond
          simp only [beq_iff_eq]
          rw [hinst, ← hid2, heq]
  | removeCourse cid =>
    dsimp only [Tk.applyOp, Tk.SchoolSystem.removecourse]
    cases hfc : sys.findcourse cid with
    | none => exact ⟨⟨hndS, hndI, hndC⟩, hRef⟩
    | some c0 =>
      dsimp only
      refine ⟨⟨?_, ?_, ?_⟩, ?_⟩
      · rw [map_key_of_map_preserve Tk.Student.studentid _ sys.students
          (fun s => by split <;> rfl)]
        exact hndS
      · cases hci : c0.instructor with
        | none => exact hndI
        | some iid0 =>
          rw [map_updateFirstBy _ _ _ (fun j => by split <;> rfl)]
          exact hndI
      · exact ((eraseFirstBy_sublist _ sys.courses).map Tk.Course.courseid).nodup hndC
      · intro c' hc' iid2 hinst
        have hc'mem : c' ∈ sys.courses := mem_of_mem_eraseFirstBy _ _ _ hc'
        have hcidne : c'.courseid ≠ c0.courseid :=
          key_ne_of_mem_eraseFirstBy_nodup Tk.Course.courseid c0.courseid sys.courses hndC c' hc'
        obtain ⟨i, hi2, hid2, hmem2⟩ := hRef c' hc'mem iid2 hinst
        cases hci : c0.instructor with
        | none => exact ⟨i, hi2, hid2, hmem2⟩
        | some iid0 =>
          dsimp only
          by_cases hii : i.instructorid = iid0
          · have hupd := mem_updateFirstBy_self_of_nodup_keys Tk.Instructor.instructorid iid0
              (fun j => if c0.courseid ∈ j.courses then
                { j with courses := j.courses.erase c0.courseid } else j)
              sys.instructors hndI i hi2 hii
            refine ⟨_, hupd, ?_, ?_⟩
            · dsimp only
              split <;> exact hid2
            · dsimp only
              split
              · exact (List.mem_erase_of_ne hcidne).2 hmem2
              · exact hmem2
          · exact ⟨i, mem_updateFirstBy_of_not_pred _ _ _ _ hi2 (by simp [hii]), hid2, hmem2⟩
  | register sid cid =>
    dsimp only [Tk.applyOp, Tk.SchoolSystem.register]
    cases hfs : sys.findstudent sid with
    | none =>
      cases hfc : sys.findcourse cid <;> exact ⟨⟨hndS, hndI, hndC⟩, hRef⟩
    | some s =>
      cases hfc : sys.findcourse cid with
      | none => exact ⟨⟨hndS, hndI, hndC⟩, hRef⟩
      | some c0 =>
        dsimp only
        by_cases hmem : s.studentid ∈ c0.students
        · refine Eq.mpr ?_ (⟨⟨hndS, hndI, hndC⟩, hRef⟩ :
            Tk.WellFormed sys ∧ Tk.instructorRefOk sys)
          rw [if_pos hmem]
        · rw [if_neg hmem]
          refine ⟨⟨?_, hndI, ?_⟩, ?_⟩
          · rw [map_updateFirstBy _ _ _ (fun t => by split <;> rfl)]
            exact hndS
          · rw [map_updateFirstBy _ _ _ (fun d => by split <;> rfl)]
            exact hndC
          · refine instructorRefOk_congr_mem sys _ rfl (fun c' hc' => ?_) hRef
            rcases mem_updateFirstBy _ _ _ _ hc' with h1 | ⟨x, hx, hpx, hfx⟩
            · exact ⟨c', h1, rfl, rfl⟩
            · subst hfx
              exact ⟨x, hx, by split <;> rfl, by split <;> rfl⟩
  | assign iid cid =>
    dsimp only [Tk.applyOp, Tk.SchoolSystem.assign]
    cases hfi : sys.findinstructor iid with
    | none =>
      cases hfc : sys.findcourse cid <;> exact ⟨⟨hndS, hndI, hndC⟩, hRef⟩
    | some i0 =>
      cases hfc : sys.findcourse cid with
      | none => exact ⟨⟨hndS, hndI, hndC⟩, hRef⟩
      | some c0 =>
        dsimp only
        have hmemI : i0 ∈ sys.instructors := by
          rw [Tk.SchoolSystem.findinstructor] at hfi
          exact List.mem_of_find?_eq_some hfi
        by_cases hcond : (c0.instructor == some i0.instructorid) = true
        · refine Eq.mpr ?_ (⟨⟨hndS, hndI, hndC⟩, hRef⟩ :
            Tk.WellFormed sys ∧ Tk.instructorRefOk sys)
          rw [if_pos hcond]
        · rw [if_neg hcond]
          refine ⟨⟨hndS, ?_, ?_⟩, ?_⟩
          · rw [map_updateFirstBy _ _ _ (fun j => by split <;> rfl)]
            exact hndI
          · rw [map_updateFirstBy (fun d => d.courseid == c0.courseid)
              (fun d => { d with instructor := some i0.instructorid })
              Tk.Course.courseid (fun d => rfl) sys.courses]
            exact hndC
          · intro c' hc' iid2 hinst
            rcases mem_updateFirstBy _ _ _ _ hc' with h1 | ⟨x, hx, hpx, hfx⟩
            · obtain ⟨i, hi2, hid2, hmem2⟩ := hRef c' h1 iid2 hinst
              by_cases hii : i.instructorid = i0.instructorid
              · have hupd := mem_updateFirstBy_self_of_nodup_keys Tk.Instructor.instructorid
                  i0.instructorid
                  (fun j => if c0.courseid ∈ j.courses then j
                    else { j with courses := j.courses ++ [c0.courseid] })
                  sys.instructors hndI i hi2 hii
                refine ⟨_, hupd, ?_, ?_⟩
                · dsimp only
                  split <;> exact hid2
                · dsimp only
                  split
                  · exact hmem2
                  · exact List.mem_append_left _ hmem2
              · exact ⟨i, mem_updateFirstBy_of_not_pred _ _ _ _ hi2 (by simp [hii]), hid2, hmem2⟩
            · subst hfx
              have hiid2 : iid2 = i0.instructorid := by
                have := hinst.symm
                simpa using this
              have hxid : x.courseid = c0.courseid := by simpa using hpx
              have hupd := mem_updateFirstBy_self_of_nodup_keys Tk.Instructor.instructorid
                i0.instructorid
                (fun j => if c0.courseid ∈ j.courses then j
                  else { j with courses := j.courses ++ [c0.courseid] })
                sys.instructors hndI i0 hmemI rfl
              refine ⟨_, hupd, ?_, ?_⟩
              · dsimp only
                split <;> rw [hiid2]
              · dsimp only
                split
                · rename_i h
                  simpa [hxid] using h
                · exact List.mem_append_right _ (by simp [hxid])

theorem foldl_preserves_wf_ref (ops : List Tk.Op) (sys : Tk.SchoolSystem)
    (h : Tk.WellFormed sys ∧ Tk.instructorRefOk sys) :
    Tk.WellFormed (List.foldl Tk.applyOp sys ops) ∧
      Tk.instructorRefOk (List.foldl Tk.applyOp sys ops) := by
  induction ops generalizing sys with
  | nil => exact h
  | cons o os ih =>
    exact ih (Tk.applyOp sys o) (step_preserves sys o h.1 h.2)

/-- C6 (amended): in every graph reachable from the empty graph via the
public operations, every course whose instructor reference is non-null
refers to an instructor present in the graph whose assigned-course list
contains that course.  (The converse direction — that no *other*
instructor's list contains the course — fails after reassignment; see the
counterexample.) -/
theorem c6_instructor_ref_invariant_reachable (ops : List Tk.Op) :
    Tk.instructorRefOk (Tk.run ops) :=
  (foldl_preserves_wf_ref ops {}
    ⟨⟨by simp, by simp, by simp⟩, by intro c hc iid h; simp at hc⟩).2

/-- Counterexample for C6 as stated: in the reachable graph `Tk.run c6ops`,
course `C1` references instructor `I2`, yet the other instructor `I1` still
lists `C1` in its assigned courses — the old link is not detached. -/
theorem c6_counterexample_stale_old_instructor :
    (Tk.run c6ops).findcourse "C1" =
      some { courseid := "C1", coursename := "Algorithms", instructor := some "I2" } ∧
    (Tk.run c6ops).findinstructor "I1" =
      some { name := "Ada", age := 40, email := "ada@x.com", instructorid := "I1",
             courses := ["C1"] } ∧
    (Tk.run c6ops).findinstructor "I2" =
      some { name := "Bob", age := 45, email := "bob@x.com", instructorid := "I2",
             courses := ["C1"] } := by
  decide

theorem validate_email_iff (email : String) :
    Doc.validate_email email = true ↔ Doc.EmailSpec email := by
  constructor
  · intro h
    simp only [Doc.validate_email, List.any_eq_true] at h
    obtain ⟨i, hi, hp⟩ := h
    cases hd : email.data.drop i with
    | nil => rw [hd] at hp; simp at hp
    | cons c rest =>
      rw [hd] at hp
      simp only [Bool.and_eq_true, decide_eq_true_eq, beq_iff_eq] at hp
      obtain ⟨⟨hL1, hL2⟩, hc, htail⟩ := hp
      simp only [Doc.matchTail, List.any_eq_true] at htail
      obtain ⟨j, hj, hq⟩ := htail
      cases he : rest.drop j with
      | nil => rw [he] at hq; simp at hq
      | cons d t =>
        rw [he] at hq
        simp only [Bool.and_eq_true, decide_eq_true_eq, beq_iff_eq] at hq
        obtain ⟨⟨hD1, hD2⟩, hdot, hT1, hT2⟩ := hq
        refine ⟨email.data.take i, rest.take j, t, ?_, hL1, hL2, hD1, hD2, hT1, hT2⟩
        have h2 : rest = rest.take j ++ ('.' :: t) := by
          conv_lhs => rw [← List.take_append_drop j rest]
          rw [he, hdot]
        conv_lhs => rw [← List.take_append_drop i email.data]
        rw [hd, hc]
        conv_lhs => rw [h2]
  · rintro ⟨L, D, T, heq, hL1, hL2, hD1, hD2, hT1, hT2⟩
    simp only [Doc.validate_email, List.any_eq_true]
    refine ⟨L.length, ?_, ?_⟩
    · rw [List.mem_range, heq]
      simp only [List.length_append, List.length_cons]
      omega
    · have htake : email.data.take L.length = L := by rw [heq]; exact List.take_left _ _
      have hdrop : email.data.drop L.length = '@' :: (D ++ '.' :: T) := by
        rw [heq]; exact List.drop_left _ _
      rw [htake, hdrop]
      simp only [Bool.and_eq_true, decide_eq_true_eq, beq_self_eq_true, true_and]
      refine ⟨⟨hL1, hL2⟩, ?_⟩
      simp only [Doc.matchTail, List.any_eq_true]
      refine ⟨D.length, ?_, ?_⟩
      · rw [List.mem_range]
        simp only [List.length_append, List.length_cons]
        omega
      · rw [List.take_left, List.drop_left]
        simp only [Bool.and_eq_true, decide_eq_true_eq, beq_self_eq_true, true_and]
        exact ⟨⟨hD1, hD2⟩, hT1, hT2⟩

/-- Counterexample for C8 as stated: the tkinter `Person` constructor (first
cited source) accepts a blank (whitespace-only) name and an empty email,
although the claim requires a validation error for both. -/
theorem c8_counterexample_blank_name_accepted :
    Tk.personValid " " 20 "" = true ∧ pyStrip (" " : String).data = [] := by
  decide

/-- C8 (amended, for the documented-project model classes): construction of
`Person`/`Student`/`Instructor` fails exactly when the name is blank, the
age is negative, the email does not match `local@domain.tld` (ASCII parts,
dotted domain, alphabetic TLD of length ≥ 2), or — for `Student`/
`Instructor` — the id is blank; on success every field keeps the given
value. -/
theorem c8_doc_validation_characterization (name : String) (age : Int)
    (email sid iid : String) :
    ((∃ e, Doc.Person.init name age email = .error e) ↔
      (pyStrip name.data = [] ∨ age < 0 ∨ ¬ Doc.EmailSpec email)) ∧
    (∀ p, Doc.Person.init name age email = .ok p →
      p.name = name ∧ p.age = age ∧ p.email = email) ∧
    ((∃ e, Doc.Student.init name age email sid = .error e) ↔
      (pyStrip name.data = [] ∨ age < 0 ∨ ¬ Doc.EmailSpec email ∨ pyStrip sid.data = [])) ∧
    (∀ s, Doc.Student.init name age email sid = .ok s →
      s.name = name ∧ s.age = age ∧ s.email = email ∧ s.student_id = sid ∧
        s.registered_courses = []) ∧
    ((∃ e, Doc.Instructor.init name age email iid = .error e) ↔
      (pyStrip name.data = [] ∨ age < 0 ∨ ¬ Doc.EmailSpec email ∨ pyStrip iid.data = [])) ∧
    (∀ ins, Doc.Instructor.init name age email iid = .ok ins →
      ins.name = name ∧ ins.age = age ∧ ins.email = email ∧ ins.instructor_id = iid ∧
        ins.assigned_courses = []) := by
  have hn' : (pyStrip name.data = []) ↔ ¬ (Doc.validate_name name = true) := by
    simp [Doc.validate_name]
  have ha' : (age < 0) ↔ ¬ (Doc.validate_age age = true) := by
    simp [Doc.validate_age]
  have he' : (¬ Doc.EmailSpec email) ↔ ¬ (Doc.validate_email email = true) := by
    rw [validate_email_iff]
  have hs' : (pyStrip sid.data = []) ↔ ¬ (Doc.validate_student_id sid = true) := by
    simp [Doc.validate_student_id]
  have hi' : (pyStrip iid.data = []) ↔ ¬ (Doc.validate_instructor_id iid = true) := by
    simp [Doc.validate_instructor_id]
  rw [hn', ha', he', hs', hi']
  refine ⟨?_, ?_, ?_, ?_, ?_, ?_⟩
  · by_cases hn : Doc.validate_name name = true <;>
      by_cases ha : Doc.validate_age age = true <;>
      by_cases he : Doc.validate_email email = true <;>
      simp [Doc.Person.init, hn, ha, he]
  · intro p hp
    rw [Doc.Person.init] at hp
    split_ifs at hp
    cases hp
    exact ⟨rfl, rfl, rfl⟩
  · by_cases hn : Doc.validate_name name = true <;>
      by_cases ha : Doc.validate_age age = true <;>
      by_cases he : Doc.validate_email email = true <;>
      by_cases hsid : Doc.validate_student_id sid = true <;>
      simp [Doc.Person.init, Doc.Student.init, hn, ha, he, hsid]
  · intro s hp
    rw [Doc.Student.init, Doc.Person.init] at hp
    split_ifs at hp
    simp at hp
    cases hp
    exact ⟨rfl, rfl, rfl, rfl, rfl⟩
  · by_cases hn : Doc.validate_name name = true <;>
      by_cases ha : Doc.validate_age age = true <;>
      by_cases he : Doc.validate_email email = true <;>
      by_cases hiid : Doc.validate_instructor_id iid = true <;>
      simp [Doc.Person.init, Doc.Instructor.init, hn, ha, he, hiid]
  · intro ins hp
    rw [Doc.Instructor.init, Doc.Person.init] at hp
    split_ifs at hp
    simp at hp
    cases hp
    exact ⟨rfl, rfl, rfl, rfl, rfl⟩

/-- Witness for C8 at concrete valid inputs: construction succeeds and keeps
every field. -/
theorem c8_doc_validation_characterization_witness :
    (Doc.Person.init "John" 30 "john@uni.edu" =
      .ok { name := "John", age := 30, email := "john@uni.edu" }) ∧
    (({ name := "John", age := 30, email := "john@uni.edu" } : Doc.Person).name = "John" ∧
      ({ name := "John", age := 30, email := "john@uni.edu" } : Doc.Person).age = 30 ∧
      ({ name := "John", age := 30, email := "john@uni.edu" } : Doc.Person).email =
        "john@uni.edu") ∧
    (Doc.Student.init "John" 30 "john@uni.edu" "S1" =
      .ok { name := "John", age := 30, email := "john@uni.edu", student_id := "S1" }) ∧
    (({ name := "John", age := 30, email := "john@uni.edu", student_id := "S1" } :
        Doc.Student).student_id = "S1" ∧
      ({ name := "John", age := 30, email := "john@uni.edu", student_id := "S1" } :
        Doc.Student).registered_courses = []) :=
  ⟨by rfl,
    (c8_doc_validation_characterization "John" 30 "john@uni.edu" "S1" "I1").2.1 _ (by rfl),
    by rfl,
    ⟨((c8_doc_validation_characterization "John" 30 "john@uni.edu" "S1" "I1").2.2.2.1 _
        (by rfl)).2.2.2.1,
      ((c8_doc_validation_characterization "John" 30 "john@uni.edu" "S1" "I1").2.2.2.1 _
        (by rfl)).2.2.2.2⟩⟩

/-- C2 evaluated at the failing input: the graph-side `removecourse` does
repair every list, but the store-side `delete_course` deletes only the
`courses` row — with `sqlite3`'s default `PRAGMA foreign_keys = OFF` the
`ON DELETE CASCADE` never fires, so the registration row referencing the
deleted course survives, contradicting the claim (and the function's own
docstring). -/
theorem c2_delete_course_keeps_registration_rows :
    c2sys.removecourse "C1" =
      (true,
        { students := [{ name := "Sam", age := 20, email := "sam@x.com", studentid := "S1",
                         courses := [] }]
          instructors := []
          courses := [] }) ∧
    Db.delete_course c2store "C1" = (true, { c2store with courses := [] }) ∧
    ({ student_id := "S1", course_id := "C1" } : Db.RegRow) ∈
      (Db.delete_course c2store "C1").2.registrations := by
  refine ⟨by decide, by decide, by decide⟩

/-! ## C10: partial updates with no fields or no matching row -/

theorem any_and_eq_false {l : List α} {p q : α → Bool} (h : ∀ x ∈ l, p x = false) :
    (l.any fun x => p x && q x) = false :=
  List.any_eq_false.2 fun x hx => by simp [h x hx]

theorem any_key_eq_false {l : List α} {p : α → Bool} (h : ∀ x ∈ l, p x = false) :
    l.any p = false :=
  List.any_eq_false.2 fun x hx => by simp [h x hx]

theorem map_if_eq_self {l : List α} {p : α → Bool} {f : α → α} (h : ∀ x ∈ l, p x = false) :
    (l.map fun x => if p x then f x else x) = l := by
  induction l with
  | nil => rfl
  | cons x xs ih =>
    rw [List.map_cons, if_neg (by simp [h x (by simp)]), ih fun y hy => h y (by simp [hy])]

/-- C10: `update_student`/`update_instructor`/`update_course` succeed
vacuously when no field is supplied (even for an unknown id) and change
nothing; with at least one field supplied and no matching row they change
nothing and return `false`. -/
theorem c10_update_semantics (st : Db.Store) (sid iid cid : String)
    (n : Option String) (a : Option Int) (e : Option String) (cn ci : Option String) :
    (Db.update_student st sid none none none = (true, st)) ∧
    (¬(n = none ∧ a = none ∧ e = none) → (∀ r ∈ st.students, r.student_id ≠ sid) →
      Db.update_student st sid n a e = (false, st)) ∧
    (Db.update_instructor st iid none none none = (true, st)) ∧
    (¬(n = none ∧ a = none ∧ e = none) → (∀ r ∈ st.instructors, r.instructor_id ≠ iid) →
      Db.update_instructor st iid n a e = (false, st)) ∧
    (Db.update_course st cid none none = (true, st)) ∧
    (¬(cn = none ∧ ci = none) → (∀ r ∈ st.courses, r.course_id ≠ cid) →
      Db.update_course st cid cn ci = (false, st)) := by
  refine ⟨by simp [Db.update_student], ?_, by simp [Db.update_instructor], ?_,
    by simp [Db.update_course], ?_⟩
  · intro hsome hno
    have hmiss : ∀ r ∈ st.students, (r.student_id == sid) = false := fun r hr => by
      simp [hno r hr]
    rw [Db.update_student, if_neg hsome,
      if_neg (by rw [Db.studentUpdateViolates, any_and_eq_false hmiss]; simp),
      any_key_eq_false hmiss, map_if_eq_self hmiss]
  · intro hsome hno
    have hmiss : ∀ r ∈ st.instructors, (r.instructor_id == iid) = false := fun r hr => by
      simp [hno r hr]
    rw [Db.update_instructor, if_neg hsome,
      if_neg (by rw [Db.instructorUpdateViolates, any_and_eq_false hmiss]; simp),
      any_key_eq_false hmiss, map_if_eq_self hmiss]
  · intro hsome hno
    have hmiss : ∀ r ∈ st.courses, (r.course_id == cid) = false := fun r hr => by
      simp [hno r hr]
    rw [Db.update_course, if_neg hsome,
      any_key_eq_false hmiss, map_if_eq_self hmiss]

/-- Witness for C10: with one field supplied and no row `"S9"`, nothing
changes and the result is `false`; with no fields it is `true`. -/
theorem c10_update_semantics_witness :
    (Db.update_student c2store "S9" none none none = (true, c2store)) ∧
    ¬((some "New" : Option String) = none ∧ (none : Option Int) = none ∧
      (none : Option String) = none) ∧
    (∀ r ∈ c2store.students, r.student_id ≠ "S9") ∧
    Db.update_student c2store "S9" (some "New") none none = (false, c2store) :=
  ⟨(c10_update_semantics c2store "S9" "I9" "C9" (some "New") none none none none).1,
    by decide, by decide,
    (c10_update_semantics c2store "S9" "I9" "C9" (some "New") none none none none).2.1
      (by decide) (by decide)⟩

/-! ## C3: sync ordering and atomicity -/

theorem except_bind_error {ε α β : Type} (e : ε) (f : α → Except ε β) :
    (Except.error e >>= f) = Except.error e := rfl

theorem except_bind_ok {ε α β : Type} (a : α) (f : α → Except ε β) :
    (Except.ok a >>= f) = f a := rfl

theorem studentPhase_disj (l : List Doc.Student) (st : Db.Store) :
    (l.foldlM (fun st x => Db.insertStudentRow st (Db.rowOfStudent x)) st = Except.error ()) ∨
    (l.foldlM (fun st x => Db.insertStudentRow st (Db.rowOfStudent x)) st =
      Except.ok { st with students := st.students ++ l.map Db.rowOfStudent }) := by
  induction l generalizing st with
  | nil => right; simp only [List.map_nil, List.append_nil]; rfl
  | cons x ls ih =>
    rw [List.foldlM_cons]
    cases h : Db.insertStudentRow st (Db.rowOfStudent x) with
    | error e => left; rfl
    | ok st2 =>
      have hval : st2 = { st with students := st.students ++ [Db.rowOfStudent x] } := by
        rw [Db.insertStudentRow] at h
        split at h
        · exact absurd h (by simp)
        · cases h; rfl
      subst hval
      rw [except_bind_ok]
      rcases ih { st with students := st.students ++ [Db.rowOfStudent x] } with he | hok
      · left; exact he
      · right
        rw [hok]
        simp [List.append_assoc]

theorem instructorPhase_disj (l : List Doc.Instructor) (st : Db.Store) :
    (l.foldlM (fun st x => Db.insertInstructorRow st (Db.rowOfInstructor x)) st = Except.error ()) ∨
    (l.foldlM (fun st x => Db.insertInstructorRow st (Db.rowOfInstructor x)) st =
      Except.ok { st with instructors := st.instructors ++ l.map Db.rowOfInstructor }) := by
  induction l generalizing st with
  | nil => right; simp only [List.map_nil, List.append_nil]; rfl
  | cons x ls ih =>
    rw [List.foldlM_cons]
    cases h : Db.insertInstructorRow st (Db.rowOfInstructor x) with
    | error e => left; rfl
    | ok st2 =>
      have hval : st2 = { st with instructors := st.instructors ++ [Db.rowOfInstructor x] } := by
        rw [Db.insertInstructorRow] at h
        split at h
        · exact absurd h (by simp)
        · cases h; rfl
      subst hval
      rw [except_bind_ok]
      rcases ih { st with instructors := st.instructors ++ [Db.rowOfInstructor x] } with he | hok
      · left; exact he
      · right
        rw [hok]
        simp [List.append_assoc]

theorem coursePhase_disj (l : List Doc.Course) (st : Db.Store) :
    (l.foldlM (fun st x => Db.insertCourseRow st (Db.rowOfCourse x)) st = Except.error ()) ∨
    (l.foldlM (fun st x => Db.insertCourseRow st (Db.rowOfCourse x)) st =
      Except.ok { st with courses := st.courses ++ l.map Db.rowOfCourse }) := by
  induction l generalizing st with
  | nil => right; simp only [List.map_nil, List.append_nil]; rfl
  | cons x ls ih =>
    rw [List.foldlM_cons]
    cases h : Db.insertCourseRow st (Db.rowOfCourse x) with
    | error e => left; rfl
    | ok st2 =>
      have hval : st2 = { st with courses := st.courses ++ [Db.rowOfCourse x] } := by
        rw [Db.insertCourseRow] at h
        split at h
        · exact absurd h (by simp)
        · cases h; rfl
      subst hval
      rw [except_bind_ok]
      rcases ih { st with courses := st.courses ++ [Db.rowOfCourse x] } with he | hok
      · left; exact he
      · right
        rw [hok]
        simp [List.append_assoc]

theorem regPhaseInner_disj (sid : String) (cids : List String) (st : Db.Store) :
    (cids.foldlM
        (fun st cid => Db.insertRegRow st { student_id := sid, course_id := cid }) st =
      Except.error ()) ∨
    (cids.foldlM
        (fun st cid => Db.insertRegRow st { student_id := sid, course_id := cid }) st =
      Except.ok { st with registrations := (st.registrations
        ++ cids.map (fun cid => { student_id := sid, course_id := cid })) }) := by
  induction cids generalizing st with
  | nil => right; simp only [List.map_nil, List.append_nil]; rfl
  | cons cid ls ih =>
    rw [List.foldlM_cons]
    cases h : Db.insertRegRow st { student_id := sid, course_id := cid } with
    | error e => left; rfl
    | ok st2 =>
      have hval : st2 = { st with registrations := st.registrations
          ++ [{ student_id := sid, course_id := cid }] } := by
        rw [Db.insertRegRow] at h
        split at h
        · exact absurd h (by simp)
        · cases h; rfl
      subst hval
      rw [except_bind_ok]
      rcases ih { st with registrations := st.registrations
          ++ [{ student_id := sid, course_id := cid }] } with he | hok
      · left; exact he
      · right
        rw [hok]
        simp [List.append_assoc]

theorem regPhase_disj (l : List Doc.Student) (st : Db.Store) :
    (l.foldlM
        (fun st s => s.registered_courses.foldlM
          (fun st cid => Db.insertRegRow st { student_id := s.student_id, course_id := cid })
          st) st =
      Except.error ()) ∨
    (l.foldlM
        (fun st s => s.registered_courses.foldlM
          (fun st cid => Db.insertRegRow st { student_id := s.student_id, course_id := cid })
          st) st =
      Except.ok { st with registrations := (st.registrations
        ++ l.flatMap (fun s => s.registered_courses.map
          (fun cid => { student_id := s.student_id, course_id := cid }))) }) := by
  induction l generalizing st with
  | nil => right; simp only [List.flatMap_nil, List.append_nil]; rfl
  | cons s ls ih =>
    rw [List.foldlM_cons]
    rcases regPhaseInner_disj s.student_id s.registered_courses st with he | hok
    · left
      rw [he]
      rfl
    · rw [hok, except_bind_ok]
      rcases ih { st with registrations := (st.registrations
          ++ s.registered_courses.map
            (fun cid => { student_id := s.student_id, course_id := cid })) } with he2 | hok2
      · left; exact he2
      · right
        rw [hok2]
        simp [List.append_assoc]

theorem syncInserts_disj (st0 : Db.Store) (sys : Doc.Sms) :
    Db.syncInserts st0 sys = Except.error () ∨
    Db.syncInserts st0 sys = Except.ok
      { students := st0.students ++ sys.students.map Db.rowOfStudent
        instructors := st0.instructors ++ sys.instructors.map Db.rowOfInstructor
        courses := st0.courses ++ sys.courses.map Db.rowOfCourse
        registrations := st0.registrations ++ Db.regRowsOf sys } := by
  rw [Db.syncInserts]
  rcases studentPhase_disj sys.students st0 with h1 | h1
  · left; rw [h1]; rfl
  · rw [h1, except_bind_ok]
    rcases instructorPhase_disj sys.instructors
        { st0 with students := st0.students ++ sys.students.map Db.rowOfStudent } with h2 | h2
    · left; rw [h2]; rfl
    · rw [h2, except_bind_ok]
      rcases coursePhase_disj sys.courses
          { { st0 with students := st0.students ++ sys.students.map Db.rowOfStudent } with
            instructors := ({ st0 with students :=
              st0.students ++ sys.students.map Db.rowOfStudent } : Db.Store).instructors
              ++ sys.instructors.map Db.rowOfInstructor } with h3 | h3
      · left; rw [h3]; rfl
      · rw [h3, except_bind_ok]
        rcases regPhase_disj sys.students _ with h4 | h4
        · left; exact h4
        · right
          rw [h4]
          rfl

/-- C3: `sync_system_to_db` is all-or-nothing — it either succeeds and
replaces the store with exactly the graph's rows, or fails and returns the
store unchanged; the delete order (registrations, courses, instructors,
students) keeps foreign-key consistency at every intermediate point; and
the insert order (students, instructors, courses, registrations) keeps
foreign-key consistency at the phase boundaries given a closed graph. -/
theorem c3_sync_order_and_atomicity (st : Db.Store) (sys : Doc.Sms) :
    (Db.sync_system_to_db st sys = (true, Db.storeOfSystem sys) ∨
      Db.sync_system_to_db st sys = (false, st)) ∧
    (Db.fkOk st →
      Db.fkOk (Db.deleteAllRegistrations st) ∧
      Db.fkOk (Db.deleteAllCourses (Db.deleteAllRegistrations st)) ∧
      Db.fkOk (Db.deleteAllInstructors (Db.deleteAllCourses (Db.deleteAllRegistrations st))) ∧
      Db.fkOk (Db.deleteAllStudents (Db.deleteAllInstructors
        (Db.deleteAllCourses (Db.deleteAllRegistrations st))))) ∧
    ((∀ c ∈ sys.courses, ∀ iid, c.instructor = some iid →
        ∃ i ∈ sys.instructors, i.instructor_id = iid) →
      Db.fkOk { students := sys.students.map Db.rowOfStudent
                instructors := sys.instructors.map Db.rowOfInstructor
                courses := sys.courses.map Db.rowOfCourse
                registrations := [] }) ∧
    ((∀ c ∈ sys.courses, ∀ iid, c.instructor = some iid →
        ∃ i ∈ sys.instructors, i.instructor_id = iid) →
      (∀ s ∈ sys.students, ∀ cid ∈ s.registered_courses,
        ∃ c ∈ sys.courses, c.course_id = cid) →
      Db.fkOk (Db.storeOfSystem sys)) := by
  refine ⟨?_, ?_, ?_, ?_⟩
  · rw [Db.sync_system_to_db]
    rcases syncInserts_disj
        (Db.deleteAllStudents (Db.deleteAllInstructors
          (Db.deleteAllCourses (Db.deleteAllRegistrations st)))) sys with h | h
    · right; rw [h]
    · left; rw [h]; rfl
  · intro h
    exact ⟨⟨fun r hr => absurd hr (by simp [Db.deleteAllRegistrations]), h.2⟩,
      ⟨fun r hr => absurd hr (by simp [Db.deleteAllRegistrations, Db.deleteAllCourses]),
        fun c hc => absurd hc (by simp [Db.deleteAllRegistrations, Db.deleteAllCourses])⟩,
      ⟨fun r hr => absurd hr (by
          simp [Db.deleteAllRegistrations, Db.deleteAllCourses, Db.deleteAllInstructors]),
        fun c hc => absurd hc (by
          simp [Db.deleteAllRegistrations, Db.deleteAllCourses, Db.deleteAllInstructors])⟩,
      ⟨fun r hr => absurd hr (by
          simp [Db.deleteAllRegistrations, Db.deleteAllCourses, Db.deleteAllInstructors,
            Db.deleteAllStudents]),
        fun c hc => absurd hc (by
          simp [Db.deleteAllRegistrations, Db.deleteAllCourses, Db.deleteAllInstructors,
            Db.deleteAllStudents])⟩⟩
  · intro hclosure
    constructor
    · intro r hr
      exact absurd hr (by simp)
    · intro c hc iid hins
      obtain ⟨c0, hc0, hfc⟩ := List.mem_map.1 hc
      rw [← hfc] at hins
      obtain ⟨i, hi, hid⟩ := hclosure c0 hc0 iid hins
      exact ⟨Db.rowOfInstructor i, List.mem_map_of_mem _ hi, hid⟩
  · intro hclosure hreg
    constructor
    · intro r hr
      rw [Db.storeOfSystem] at hr
      simp only [Db.regRowsOf, List.mem_flatMap, List.mem_map] at hr
      obtain ⟨s, hs, cid, hcid, hfr⟩ := hr
      constructor
      · exact ⟨Db.rowOfStudent s, List.mem_map_of_mem _ hs, by rw [← hfr]; rfl⟩
      · obtain ⟨c, hcm, hcid2⟩ := hreg s hs cid hcid
        refine ⟨Db.rowOfCourse c, List.mem_map_of_mem _ hcm, ?_⟩
        rw [← hfr]
        exact hcid2
    · intro c hc iid hins
      rw [Db.storeOfSystem] at hc
      obtain ⟨c0, hc0, hfc⟩ := List.mem_map.1 hc
      rw [← hfc] at hins
      obtain ⟨i, hi, hid⟩ := hclosure c0 hc0 iid hins
      exact ⟨Db.rowOfInstructor i, List.mem_map_of_mem _ hi, hid⟩

/-- Witness for C3 at a concrete store and graph. -/
theorem c3_sync_order_and_atomicity_witness :
    (Db.sync_system_to_db c2store c3sysW = (true, Db.storeOfSystem c3sysW) ∨
      Db.sync_system_to_db c2store c3sysW = (false, c2store)) ∧
    Db.fkOk c2store ∧
    Db.fkOk (Db.deleteAllRegistrations c2store) ∧
    Db.fkOk (Db.storeOfSystem c3sysW) :=
  ⟨(c3_sync_order_and_atomicity c2store c3sysW).1,
    by decide,
    ((c3_sync_order_and_atomicity c2store c3sysW).2.1 (by decide)).1,
    (c3_sync_order_and_atomicity c2store c3sysW).2.2.2 (by decide) (by decide)⟩

/-! ## C1: round-trip machinery — successful sync under valid input -/

theorem not_mem_left_of_nodup_append {l1 l2 : List α} {a : α}
    (h : (l1 ++ a :: l2).Nodup) : a ∉ l1 := by
  rw [List.nodup_append] at h
  intro hmem
  exact h.2.2 hmem (by simp)

theorem not_mem_right_of_nodup_append {l1 l2 : List α} {a : α}
    (h : (l1 ++ a :: l2).Nodup) : a ∉ l2 := by
  rw [List.nodup_append] at h
  exact (List.nodup_cons.1 h.2.1).1

theorem studentPhase_ok (l : List Doc.Student) (st : Db.Store)
    (hid : ((st.students ++ l.map Db.rowOfStudent).map Db.StudentRow.student_id).Nodup)
    (hem : ((st.students ++ l.map Db.rowOfStudent).map Db.StudentRow.email).Nodup)
    (hage : ∀ s ∈ l, 0 ≤ s.age) :
    l.foldlM (fun st x => Db.insertStudentRow st (Db.rowOfStudent x)) st =
      Except.ok { st with students := st.students ++ l.map Db.rowOfStudent } := by
  induction l generalizing st with
  | nil => simp only [List.map_nil, List.append_nil]; rfl
  | cons s ls ih =>
    rw [List.map_cons] at hid hem
    rw [List.foldlM_cons]
    have hins : Db.insertStudentRow st (Db.rowOfStudent s) =
        Except.ok { st with students := st.students ++ [Db.rowOfStudent s] } := by
      rw [Db.insertStudentRow, if_neg]
      simp only [Bool.or_eq_true, decide_eq_true_eq, not_or, List.any_eq_true, not_exists]
      refine ⟨⟨?_, ?_⟩, ?_⟩
      · intro x hx
        obtain ⟨hxm, hc⟩ := hx
        have hnm : (Db.rowOfStudent s).student_id ∉ st.students.map Db.StudentRow.student_id := by
          rw [List.map_append, List.map_cons] at hid
          exact not_mem_left_of_nodup_append hid
        simp only [beq_iff_eq] at hc
        exact hnm (hc ▸ List.mem_map_of_mem _ hxm)
      · intro x hx
        obtain ⟨hxm, hc⟩ := hx
        have hnm : (Db.rowOfStudent s).email ∉ st.students.map Db.StudentRow.email := by
          rw [List.map_append, List.map_cons] at hem
          exact not_mem_left_of_nodup_append hem
        simp only [beq_iff_eq] at hc
        exact hnm (hc ▸ List.mem_map_of_mem _ hxm)
      · have := hage s (by simp)
        simp only [Db.rowOfStudent, not_lt]
        exact this
    rw [hins, except_bind_ok]
    rw [List.append_cons] at hid hem
    rw [ih { st with students := st.students ++ [Db.rowOfStudent s] } hid hem
      (fun x hx => hage x (by simp [hx]))]
    simp [List.append_assoc]

theorem instructorPhase_ok (l : List Doc.Instructor) (st : Db.Store)
    (hid : ((st.instructors ++ l.map Db.rowOfInstructor).map
      Db.InstructorRow.instructor_id).Nodup)
    (hem : ((st.instructors ++ l.map Db.rowOfInstructor).map Db.InstructorRow.email).Nodup)
    (hage : ∀ i ∈ l, 0 ≤ i.age) :
    l.foldlM (fun st x => Db.insertInstructorRow st (Db.rowOfInstructor x)) st =
      Except.ok { st with instructors := st.instructors ++ l.map Db.rowOfInstructor } := by
  induction l generalizing st with
  | nil => simp only [List.map_nil, List.append_nil]; rfl
  | cons i ls ih =>
    rw [List.map_cons] at hid hem
    rw [List.foldlM_cons]
    have hins : Db.insertInstructorRow st (Db.rowOfInstructor i) =
        Except.ok { st with instructors := st.instructors ++ [Db.rowOfInstructor i] } := by
      rw [Db.insertInstructorRow, if_neg]
      simp only [Bool.or_eq_true, decide_eq_true_eq, not_or, List.any_eq_true, not_exists]
      refine ⟨⟨?_, ?_⟩, ?_⟩
      · intro x hx
        obtain ⟨hxm, hc⟩ := hx
        have hnm : (Db.rowOfInstructor i).instructor_id ∉
            st.instructors.map Db.InstructorRow.instructor_id := by
          rw [List.map_append, List.map_cons] at hid
          exact not_mem_left_of_nodup_append hid
        simp only [beq_iff_eq] at hc
        exact hnm (hc ▸ List.mem_map_of_mem _ hxm)
      · intro x hx
        obtain ⟨hxm, hc⟩ := hx
        have hnm : (Db.rowOfInstructor i).email ∉ st.instructors.map Db.InstructorRow.email := by
          rw [List.map_append, List.map_cons] at hem
          exact not_mem_left_of_nodup_append hem
        simp only [beq_iff_eq] at hc
        exact hnm (hc ▸ List.mem_map_of_mem _ hxm)
      · have := hage i (by simp)
        simp only [Db.rowOfInstructor, not_lt]
        exact this
    rw [hins, except_bind_ok]
    rw [List.append_cons] at hid hem
    rw [ih { st with instructors := st.instructors ++ [Db.rowOfInstructor i] } hid hem
      (fun x hx => hage x (by simp [hx]))]
    simp [List.append_assoc]

theorem coursePhase_ok (l : List Doc.Course) (st : Db.Store)
    (hid : ((st.courses ++ l.map Db.rowOfCourse).map Db.CourseRow.course_id).Nodup) :
    l.foldlM (fun st x => Db.insertCourseRow st (Db.rowOfCourse x)) st =
      Except.ok { st with courses := st.courses ++ l.map Db.rowOfCourse } := by
  induction l generalizing st with
  | nil => simp only [List.map_nil, List.append_nil]; rfl
  | cons c ls ih =>
    rw [List.map_cons] at hid
    rw [List.foldlM_cons]
    have hins : Db.insertCourseRow st (Db.rowOfCourse c) =
        Except.ok { st with courses := st.courses ++ [Db.rowOfCourse c] } := by
      rw [Db.insertCourseRow, if_neg]
      simp only [List.any_eq_true, not_exists]
      intro x hx
      obtain ⟨hxm, hc⟩ := hx
      have hnm : (Db.rowOfCourse c).course_id ∉ st.courses.map Db.CourseRow.course_id := by
        rw [List.map_append, List.map_cons] at hid
        exact not_mem_left_of_nodup_append hid
      simp only [beq_iff_eq] at hc
      exact hnm (hc ▸ List.mem_map_of_mem _ hxm)
    rw [hins, except_bind_ok]
    rw [List.append_cons] at hid
    rw [ih { st with courses := st.courses ++ [Db.rowOfCourse c] } hid]
    simp [List.append_assoc]

theorem regList_ok (rows : List Db.RegRow) (st : Db.Store)
    (hnd : ((st.registrations ++ rows).map fun r => (r.student_id, r.course_id)).Nodup) :
    rows.foldlM (fun st r => Db.insertRegRow st r) st =
      Except.ok { st with registrations := st.registrations ++ rows } := by
  induction rows generalizing st with
  | nil => simp only [List.append_nil]; rfl
  | cons r rs ih =>
    rw [List.foldlM_cons]
    have hins : Db.insertRegRow st r =
        Except.ok { st with registrations := st.registrations ++ [r] } := by
      rw [Db.insertRegRow, if_neg]
      simp only [List.any_eq_true, not_exists]
      intro x hx
      obtain ⟨hxm, hc⟩ := hx
      simp only [Bool.and_eq_true, beq_iff_eq] at hc
      have hnm : (r.student_id, r.course_id) ∉
          st.registrations.map (fun r => (r.student_id, r.course_id)) := by
        rw [List.map_append, List.map_cons] at hnd
        exact not_mem_left_of_nodup_append hnd
      refine hnm ?_
      have hx2 : (x.student_id, x.course_id) ∈
          st.registrations.map (fun r => (r.student_id, r.course_id)) :=
        List.mem_map_of_mem _ hxm
      rw [hc.1, hc.2] at hx2
      exact hx2
    rw [hins, except_bind_ok]
    rw [List.append_cons] at hnd
    rw [ih { st with registrations := st.registrations ++ [r] } hnd]
    simp [List.append_assoc]

theorem regPhase_eq_flat (l : List Doc.Student) (st : Db.Store) :
    l.foldlM
        (fun st s => s.registered_courses.foldlM
          (fun st cid => Db.insertRegRow st { student_id := s.student_id, course_id := cid })
          st) st =
      (l.flatMap fun s => s.registered_courses.map
        (fun cid => { student_id := s.student_id, course_id := cid })).foldlM
        (fun st r => Db.insertRegRow st r) st := by
  induction l generalizing st with
  | nil => rfl
  | cons s ls ih =>
    rw [List.foldlM_cons, List.flatMap_cons, List.foldlM_append, List.foldlM_map]
    simp only [ih]

theorem regPhase_ok (l : List Doc.Student) (st : Db.Store)
    (hnd : ((st.registrations ++ l.flatMap fun s => s.registered_courses.map
      (fun cid => ({ student_id := s.student_id, course_id := cid } : Db.RegRow))).map
        fun r : Db.RegRow => (r.student_id, r.course_id)).Nodup) :
    l.foldlM
        (fun st s => s.registered_courses.foldlM
          (fun st cid => Db.insertRegRow st { student_id := s.student_id, course_id := cid })
          st) st =
      Except.ok { st with registrations := (st.registrations
        ++ l.flatMap fun s => s.registered_courses.map
          (fun cid => ({ student_id := s.student_id, course_id := cid } : Db.RegRow))) } := by
  rw [regPhase_eq_flat]
  exact regList_ok _ _ hnd

theorem regRows_pair_nodup_list (l : List Doc.Student)
    (H1 : (l.map Doc.Student.student_id).Nodup)
    (H6 : ∀ s ∈ l, s.registered_courses.Nodup) :
    ((l.flatMap fun s => s.registered_courses.map
      (fun cid => ({ student_id := s.student_id, course_id := cid } : Db.RegRow))).map
        fun r : Db.RegRow => (r.student_id, r.course_id)).Nodup := by
  induction l with
  | nil => simp
  | cons s ls ih =>
    rw [List.map_cons] at H1
    obtain ⟨hhead, htail⟩ := List.nodup_cons.1 H1
    rw [List.flatMap_cons, List.map_append, List.nodup_append]
    refine ⟨?_, ?_, ?_⟩
    · rw [List.map_map]
      exact List.Nodup.map (fun a b hab => by simpa using congrArg Prod.snd hab)
        (H6 s (by simp))
    · exact ih htail (fun x hx => H6 x (by simp [hx]))
    · intro p hp hq
      rw [List.map_map] at hp
      obtain ⟨cid, hcid, hpe⟩ := List.mem_map.1 hp
      obtain ⟨r, hr, hqe⟩ := List.mem_map.1 hq
      obtain ⟨s2, hs2, hrm⟩ := List.mem_flatMap.1 hr
      obtain ⟨cid2, hcid2, hre⟩ := List.mem_map.1 hrm
      have heq : s.student_id = s2.student_id := by
        have e1 : s.student_id = p.1 := congrArg Prod.fst hpe
        have e2 : r.student_id = p.1 := congrArg Prod.fst hqe
        have e3 : r.student_id = s2.student_id := by rw [← hre]
        rw [e1, ← e2, e3]
      exact hhead (by rw [heq]; exact List.mem_map_of_mem _ hs2)

theorem sync_ok (st : Db.Store) (g : Doc.Sms)
    (H1 : (g.students.map Doc.Student.student_id).Nodup)
    (H4 : (g.students.map Doc.Student.email).Nodup)
    (HA : ∀ s ∈ g.students, 0 ≤ s.age)
    (H2 : (g.instructors.map Doc.Instructor.instructor_id).Nodup)
    (H5 : (g.instructors.map Doc.Instructor.email).Nodup)
    (HB : ∀ i ∈ g.instructors, 0 ≤ i.age)
    (H3 : (g.courses.map Doc.Course.course_id).Nodup)
    (H6 : ∀ s ∈ g.students, s.registered_courses.Nodup) :
    Db.sync_system_to_db st g = (true, Db.storeOfSystem g) := by
  have hs : Db.syncInserts
      (Db.deleteAllStudents (Db.deleteAllInstructors
        (Db.deleteAllCourses (Db.deleteAllRegistrations st)))) g =
      Except.ok (Db.storeOfSystem g) := by
    rw [Db.syncInserts]
    rw [studentPhase_ok g.students _
      (by simp only [Db.deleteAllStudents, Db.deleteAllInstructors, Db.deleteAllCourses, Db.deleteAllRegistrations]; rw [List.nil_append, List.map_map]; exact H1)
      (by simp only [Db.deleteAllStudents, Db.deleteAllInstructors, Db.deleteAllCourses, Db.deleteAllRegistrations]; rw [List.nil_append, List.map_map]; exact H4) HA, except_bind_ok]
    rw [instructorPhase_ok g.instructors _
      (by simp only [Db.deleteAllStudents, Db.deleteAllInstructors, Db.deleteAllCourses, Db.deleteAllRegistrations]; rw [List.nil_append, List.map_map]; exact H2)
      (by simp only [Db.deleteAllStudents, Db.deleteAllInstructors, Db.deleteAllCourses, Db.deleteAllRegistrations]; rw [List.nil_append, List.map_map]; exact H5) HB, except_bind_ok]
    rw [coursePhase_ok g.courses _
      (by simp only [Db.deleteAllStudents, Db.deleteAllInstructors, Db.deleteAllCourses, Db.deleteAllRegistrations]; rw [List.nil_append, List.map_map]; exact H3), except_bind_ok]
    rw [regPhase_ok g.students _
      (by simp only [Db.deleteAllStudents, Db.deleteAllInstructors, Db.deleteAllCourses, Db.deleteAllRegistrations]; rw [List.nil_append]; exact regRows_pair_nodup_list g.students H1 H6)]
    rfl
  rw [Db.sync_system_to_db, hs]

theorem loadCourseStep_char (acc : Doc.Sms) (row : Db.CourseJoin) :
    (Db.loadCourseStep acc row).students = acc.students ∧
    (Db.loadCourseStep acc row).instructors.map Doc.Instructor.instructor_id =
      acc.instructors.map Doc.Instructor.instructor_id ∧
    (Db.loadCourseStep acc row).courses = acc.courses ++
      [{ course_id := row.course_id, course_name := row.course_name,
         instructor := Db.resolveRef (acc.instructors.map Doc.Instructor.instructor_id)
           row.instructor_id }] := by
  rw [Db.loadCourseStep]
  cases hri : row.instructor_id with
  | none => exact ⟨rfl, rfl, rfl⟩
  | some iid =>
    cases hf : acc.find_instructor_by_id iid with
    | none =>
      have hni : iid ∉ acc.instructors.map Doc.Instructor.instructor_id := by
        rw [Doc.Sms.find_instructor_by_id] at hf
        exact not_mem_key_of_find?_none _ _ _ hf
      simp only [hf]
      refine ⟨rfl, rfl, ?_⟩
      simp [Db.resolveRef, hni, Doc.Sms.add_course]
    | some i =>
      have hieq : i.instructor_id = iid := by
        rw [Doc.Sms.find_instructor_by_id] at hf
        simpa using List.find?_some hf
      have hmem : iid ∈ acc.instructors.map Doc.Instructor.instructor_id := by
        rw [Doc.Sms.find_instructor_by_id] at hf
        exact hieq ▸ List.mem_map_of_mem _ (List.mem_of_find?_eq_some hf)
      simp only [hf]
      refine ⟨rfl, ?_, ?_⟩
      · exact map_updateFirstBy _
          (fun j => { j with assigned_courses := j.assigned_courses ++ [row.course_id] })
          Doc.Instructor.instructor_id (fun j => rfl) _
      · simp [Db.resolveRef, hmem, hieq, Doc.Sms.add_course]

theorem loadCourses_fold (rows : List Db.CourseJoin) (acc : Doc.Sms) :
    (rows.foldl Db.loadCourseStep acc).students = acc.students ∧
    (rows.foldl Db.loadCourseStep acc).instructors.map Doc.Instructor.instructor_id =
      acc.instructors.map Doc.Instructor.instructor_id ∧
    (rows.foldl Db.loadCourseStep acc).courses = acc.courses ++
      rows.map (fun row =>
        { course_id := row.course_id, course_name := row.course_name,
          instructor := Db.resolveRef (acc.instructors.map Doc.Instructor.instructor_id)
            row.instructor_id }) := by
  induction rows generalizing acc with
  | nil => exact ⟨rfl, rfl, by simp⟩
  | cons row rest ih =>
    rw [List.foldl_cons]
    obtain ⟨h1, h2, h3⟩ := loadCourseStep_char acc row
    obtain ⟨g1, g2, g3⟩ := ih (Db.loadCourseStep acc row)
    refine ⟨g1.trans h1, g2.trans h2, ?_⟩
    rw [g3, h3, h2]
    simp [List.append_assoc]

theorem regStep_fold (sid : String) (rows : List (String × String)) (s : Doc.Student)
    (cs : List Doc.Course) :
    (rows.foldl (Db.regStep sid) (s, cs)).1.student_id = s.student_id ∧
    ((rows.foldl (Db.regStep sid) (s, cs)).2.map fun c => (c.course_id, c.instructor)) =
      (cs.map fun c => (c.course_id, c.instructor)) ∧
    (∀ cid, cid ∈ (rows.foldl (Db.regStep sid) (s, cs)).1.registered_courses ↔
      (cid ∈ s.registered_courses ∨
        (cid ∈ rows.map Prod.fst ∧ cid ∈ cs.map Doc.Course.course_id))) := by
  induction rows generalizing s cs with
  | nil => exact ⟨rfl, rfl, fun cid => by simp⟩
  | cons rc rest ih =>
    rw [List.foldl_cons, Db.regStep]
    dsimp only
    cases hf : cs.find? (fun c => c.course_id == rc.1) with
    | none =>
      have hni : rc.1 ∉ cs.map Doc.Course.course_id := not_mem_key_of_find?_none _ _ _ hf
      obtain ⟨g1, g2, g3⟩ := ih s cs
      refine ⟨g1, g2, fun cid => ?_⟩
      rw [g3 cid]
      simp only [List.map_cons, List.mem_cons]
      constructor
      · rintro (h | ⟨h1, h2⟩)
        · exact Or.inl h
        · exact Or.inr ⟨Or.inr h1, h2⟩
      · rintro (h | ⟨h1 | h1, h2⟩)
        · exact Or.inl h
        · exact absurd (h1 ▸ h2) hni
        · exact Or.inr ⟨h1, h2⟩
    | some c =>
      dsimp only
      have hceq : c.course_id = rc.1 := by simpa using List.find?_some hf
      have hcm : rc.1 ∈ cs.map Doc.Course.course_id :=
        hceq ▸ List.mem_map_of_mem _ (List.mem_of_find?_eq_some hf)
      by_cases hreg : c.course_id ∈ s.registered_courses
      · rw [if_pos hreg]
        obtain ⟨g1, g2, g3⟩ := ih s cs
        refine ⟨g1, g2, fun cid => ?_⟩
        rw [g3 cid]
        simp only [List.map_cons, List.mem_cons]
        constructor
        · rintro (h | ⟨h1, h2⟩)
          · exact Or.inl h
          · exact Or.inr ⟨Or.inr h1, h2⟩
        · rintro (h | ⟨h1 | h1, h2⟩)
          · exact Or.inl h
          · exact Or.inl (by rw [h1, ← hceq]; exact hreg)
          · exact Or.inr ⟨h1, h2⟩
      · rw [if_neg hreg]
        obtain ⟨g1, g2, g3⟩ := ih
          { s with registered_courses := s.registered_courses ++ [c.course_id] }
          (updateFirstBy (fun d => d.course_id == c.course_id)
            (fun d => if sid ∈ d.enrolled_students then d
              else { d with enrolled_students := d.enrolled_students ++ [sid] }) cs)
        have hpairs : ((updateFirstBy (fun d => d.course_id == c.course_id)
            (fun d => if sid ∈ d.enrolled_students then d
              else { d with enrolled_students := d.enrolled_students ++ [sid] }) cs).map
              fun d => (d.course_id, d.instructor)) =
            (cs.map fun d => (d.course_id, d.instructor)) :=
          map_updateFirstBy _ _ _ (fun d => by split <;> rfl) cs
        have hids : ((updateFirstBy (fun d => d.course_id == c.course_id)
            (fun d => if sid ∈ d.enrolled_students then d
              else { d with enrolled_students := d.enrolled_students ++ [sid] }) cs).map
              Doc.Course.course_id) = cs.map Doc.Course.course_id :=
          map_updateFirstBy _ _ _ (fun d => by split <;> rfl) cs
        refine ⟨g1, g2.trans hpairs, fun cid => ?_⟩
        rw [g3 cid, hids]
        simp only [List.mem_append, List.mem_singleton, List.map_cons, List.mem_cons,
          List.not_mem_nil, or_false]
        constructor
        · rintro ((h | h) | ⟨h1, h2⟩)
          · exact Or.inl h
          · exact Or.inr ⟨Or.inl (h.trans hceq), by rw [h, hceq]; exact hcm⟩
          · exact Or.inr ⟨Or.inr h1, h2⟩
        · rintro (h | ⟨h1 | h1, h2⟩)
          · exact Or.inl (Or.inl h)
          · exact Or.inl (Or.inr (h1.trans hceq.symm))
          · exact Or.inr ⟨h1, h2⟩

theorem loadStudentStep_char (db : Db.Store) (acc : Doc.Sms) (row : Db.StudentRow) :
    (Db.loadStudentStep db acc row).instructors = acc.instructors ∧
    ((Db.loadStudentStep db acc row).courses.map fun c => (c.course_id, c.instructor)) =
      (acc.courses.map fun c => (c.course_id, c.instructor)) ∧
    ∃ s1, (Db.loadStudentStep db acc row).students = acc.students ++ [s1] ∧
      s1.student_id = row.student_id ∧
      (∀ cid, cid ∈ s1.registered_courses ↔
        (cid ∈ (Db.get_student_courses db row.student_id).map Prod.fst ∧
          cid ∈ acc.courses.map Doc.Course.course_id)) := by
  obtain ⟨g1, g2, g3⟩ := regStep_fold row.student_id
    (Db.get_student_courses db row.student_id)
    { name := row.name, age := row.age, email := row.email, student_id := row.student_id }
    acc.courses
  rw [Db.loadStudentStep]
  refine ⟨rfl, g2, _, rfl, g1, fun cid => ?_⟩
  rw [g3 cid]
  simp

theorem courseIds_of_pairs {l1 l2 : List Doc.Course}
    (h : (l1.map fun c => (c.course_id, c.instructor)) =
      (l2.map fun c => (c.course_id, c.instructor))) :
    l1.map Doc.Course.course_id = l2.map Doc.Course.course_id := by
  have h2 := congrArg (List.map Prod.fst) h
  simpa [List.map_map, Function.comp_def] using h2

theorem loadStudents_fold (db : Db.Store) (rows : List Db.StudentRow) (acc : Doc.Sms) :
    (rows.foldl (Db.loadStudentStep db) acc).instructors = acc.instructors ∧
    ((rows.foldl (Db.loadStudentStep db) acc).courses.map fun c => (c.course_id, c.instructor)) =
      (acc.courses.map fun c => (c.course_id, c.instructor)) ∧
    (∀ sid, sid ∈ (rows.foldl (Db.loadStudentStep db) acc).students.map Doc.Student.student_id ↔
      (sid ∈ acc.students.map Doc.Student.student_id ∨
        sid ∈ rows.map Db.StudentRow.student_id)) ∧
    (∀ sid cid, (rows.foldl (Db.loadStudentStep db) acc).regEdge sid cid ↔
      (acc.regEdge sid cid ∨
        (sid ∈ rows.map Db.StudentRow.student_id ∧
          cid ∈ (Db.get_student_courses db sid).map Prod.fst ∧
          cid ∈ acc.courses.map Doc.Course.course_id))) := by
  induction rows generalizing acc with
  | nil => exact ⟨rfl, rfl, fun sid => by simp, fun sid cid => by simp⟩
  | cons row rest ih =>
    rw [List.foldl_cons]
    obtain ⟨h1, h2, s1, h3, h4, h5⟩ := loadStudentStep_char db acc row
    obtain ⟨g1, g2, g3, g4⟩ := ih (Db.loadStudentStep db acc row)
    have hcids : (Db.loadStudentStep db acc row).courses.map Doc.Course.course_id =
        acc.courses.map Doc.Course.course_id := courseIds_of_pairs h2
    refine ⟨g1.trans h1, g2.trans h2, fun sid => ?_, fun sid cid => ?_⟩
    · rw [g3 sid, h3]
      simp only [List.map_append, List.map_cons, List.mem_append, List.mem_cons,
        List.map_nil, List.not_mem_nil, or_false, List.mem_singleton]
      constructor
      · rintro ((h | h) | h)
        · exact Or.inl h
        · exact Or.inr (Or.inl (h.trans h4))
        · exact Or.inr (Or.inr h)
      · rintro (h | (h | h))
        · exact Or.inl (Or.inl h)
        · exact Or.inl (Or.inr (h.trans h4.symm))
        · exact Or.inr h
    · rw [g4 sid cid, hcids]
      have hstep : (Db.loadStudentStep db acc row).regEdge sid cid ↔
          (acc.regEdge sid cid ∨
            (sid = row.student_id ∧
              cid ∈ (Db.get_student_courses db row.student_id).map Prod.fst ∧
              cid ∈ acc.courses.map Doc.Course.course_id)) := by
        rw [Doc.Sms.regEdge, Doc.Sms.regEdge]
        constructor
        · rintro ⟨s, hs, hsid, hcid⟩
          rw [h3, List.mem_append, List.mem_singleton] at hs
          rcases hs with hs | hs
          · exact Or.inl ⟨s, hs, hsid, hcid⟩
          · subst hs
            refine Or.inr ⟨h4 ▸ hsid.symm, ?_⟩
            have := (h5 cid).1 hcid
            exact ⟨this.1, this.2⟩
        · rintro (⟨s, hs, hsid, hcid⟩ | ⟨hsid, hc1, hc2⟩)
          · exact ⟨s, by rw [h3]; exact List.mem_append_left _ hs, hsid, hcid⟩
          · refine ⟨s1, by rw [h3]; exact List.mem_append_right _ (by simp), ?_, ?_⟩
            · rw [h4, hsid]
            · exact (h5 cid).2 ⟨hc1, hc2⟩
      rw [hstep]
      simp only [List.map_cons, List.mem_cons]
      constructor
      · rintro ((h | ⟨e1, e2, e3⟩) | ⟨h1a, h2a, h3a⟩)
        · exact Or.inl h
        · exact Or.inr ⟨Or.inl e1, by rw [e1]; exact e2, e3⟩
        · exact Or.inr ⟨Or.inr h1a, h2a, h3a⟩
      · rintro (h | ⟨(e1 | e1), h2a, h3a⟩)
        · exact Or.inl (Or.inl h)
        · exact Or.inl (Or.inr ⟨e1, by rw [← e1]; exact h2a, h3a⟩)
        · exact Or.inr ⟨e1, h2a, h3a⟩

theorem mem_map_sortByKey (key : α → String) (f : α → β) (l : List α) (b : β) :
    b ∈ (sortByKey key l).map f ↔ b ∈ l.map f := by
  simp only [List.mem_map]
  constructor
  · rintro ⟨a, ha, rfl⟩
    exact ⟨a, (mem_sortByKey key a l).1 ha, rfl⟩
  · rintro ⟨a, ha, rfl⟩
    exact ⟨a, (mem_sortByKey key a l).2 ha, rfl⟩

theorem resolveRef_eq_some (ids : List String) (o : Option String) (iid : String) :
    Db.resolveRef ids o = some iid ↔ (o = some iid ∧ iid ∈ ids) := by
  cases o with
  | none => simp [Db.resolveRef]
  | some x =>
    rw [Db.resolveRef]
    by_cases hx : x ∈ ids
    · rw [if_pos hx]
      constructor
      · rintro h
        cases h
        exact ⟨rfl, hx⟩
      · rintro ⟨h, _⟩
        cases h
        rfl
    · rw [if_neg hx]
      constructor
      · rintro h
        cases h
      · rintro ⟨h, hmem⟩
        cases h
        exact absurd hmem hx

theorem mem_regRowsOf (g : Doc.Sms) (r : Db.RegRow) :
    r ∈ Db.regRowsOf g ↔ ∃ s ∈ g.students, ∃ cid ∈ s.registered_courses,
      r = { student_id := s.student_id, course_id := cid } := by
  rw [Db.regRowsOf]
  simp only [List.mem_flatMap, List.mem_map]
  constructor
  · rintro ⟨s, hs, cid, hcid, rfl⟩
    exact ⟨s, hs, cid, hcid, rfl⟩
  · rintro ⟨s, hs, cid, hcid, rfl⟩
    exact ⟨s, hs, cid, hcid, rfl⟩

theorem get_student_courses_fst_mem (db : Db.Store) (sid cid : String) :
    cid ∈ (Db.get_student_courses db sid).map Prod.fst ↔
      ∃ c ∈ db.courses, c.course_id = cid ∧
        ∃ r ∈ db.registrations, r.course_id = c.course_id ∧ r.student_id = sid := by
  rw [Db.get_student_courses]
  rw [mem_map_sortByKey]
  constructor
  · intro h
    obtain ⟨p, hp, hpe⟩ := List.mem_map.1 h
    obtain ⟨c, hc, hp2⟩ := List.mem_flatMap.1 hp
    obtain ⟨r, hr, hre⟩ := List.mem_map.1 hp2
    have hrf := List.mem_filter.1 hr
    have hcond := hrf.2
    simp only [Bool.and_eq_true, beq_iff_eq] at hcond
    refine ⟨c, hc, ?_, r, hrf.1, hcond.1, hcond.2⟩
    rw [← hpe, ← hre]
  · rintro ⟨c, hc, hcid, r, hr, hrc, hrs⟩
    refine List.mem_map.2 ⟨(c.course_id, c.course_name), ?_, hcid⟩
    exact List.mem_flatMap.2 ⟨c, hc,
      List.mem_map.2 ⟨r, List.mem_filter.2 ⟨hr, by simp [hrc, hrs]⟩, rfl⟩⟩

theorem get_all_courses_char (db : Db.Store)
    (hclo : ∀ c ∈ db.courses, ∀ iid, c.instructor_id = some iid →
      ∃ i ∈ db.instructors, i.instructor_id = iid) :
    (∀ row ∈ Db.get_all_courses db, ∃ c ∈ db.courses,
      row.course_id = c.course_id ∧ row.instructor_id = c.instructor_id) ∧
    (∀ c ∈ db.courses, ∃ row ∈ Db.get_all_courses db,
      row.course_id = c.course_id ∧ row.instructor_id = c.instructor_id) := by
  constructor
  · intro row hrow
    rw [Db.get_all_courses, mem_sortByKey] at hrow
    obtain ⟨c, hc, hrow2⟩ := List.mem_flatMap.1 hrow
    refine ⟨c, hc, ?_⟩
    cases hci : c.instructor_id with
    | none =>
      rw [hci] at hrow2
      simp only [Db.joinRowsAux, List.mem_singleton] at hrow2
      subst hrow2
      exact ⟨rfl, rfl⟩
    | some iid =>
      rw [hci] at hrow2
      simp only [Db.joinRowsAux] at hrow2
      by_cases hfil : (db.instructors.filter fun i => i.instructor_id == iid) = []
      · obtain ⟨i, hi, hid⟩ := hclo c hc iid hci
        have hmem : i ∈ db.instructors.filter fun i => i.instructor_id == iid :=
          List.mem_filter.2 ⟨hi, by simp [hid]⟩
        rw [hfil] at hmem
        simp at hmem
      · rw [if_neg hfil] at hrow2
        obtain ⟨i, hi, hre⟩ := List.mem_map.1 hrow2
        have hid : i.instructor_id = iid := by simpa using (List.mem_filter.1 hi).2
        rw [← hre]
        exact ⟨rfl, by rw [hid]⟩
  · intro c hc
    cases hci : c.instructor_id with
    | none =>
      refine ⟨({ course_id := c.course_id, course_name := c.course_name,
                 instructor_id := none, instructor_name := none } : Db.CourseJoin),
        ?_, rfl, rfl⟩
      rw [Db.get_all_courses, mem_sortByKey]
      refine List.mem_flatMap.2 ⟨c, hc, ?_⟩
      simp [hci, Db.joinRowsAux]
    | some iid =>
      obtain ⟨i, hi, hid⟩ := hclo c hc iid hci
      have hifil : i ∈ db.instructors.filter fun j => j.instructor_id == iid :=
        List.mem_filter.2 ⟨hi, by simp [hid]⟩
      have hne : (db.instructors.filter fun j => j.instructor_id == iid) ≠ [] := by
        intro h0
        rw [h0] at hifil
        simp at hifil
      refine ⟨({ course_id := c.course_id, course_name := c.course_name,
                 instructor_id := some i.instructor_id,
                 instructor_name := some i.name } : Db.CourseJoin),
        ?_, rfl, by rw [hid]⟩
      rw [Db.get_all_courses, mem_sortByKey]
      refine List.mem_flatMap.2 ⟨c, hc, ?_⟩
      simp only [hci, Db.joinRowsAux, if_neg hne]
      exact List.mem_map.2 ⟨i, hifil, rfl⟩

theorem loadBase_ids (g : Doc.Sms) (iid : String) :
    iid ∈ (Db.loadBase (Db.storeOfSystem g)).instructors.map Doc.Instructor.instructor_id ↔
      iid ∈ g.instructorIds := by
  rw [Db.loadBase]
  dsimp only
  rw [List.map_map, Db.get_all_instructors, mem_map_sortByKey]
  rw [show (Db.storeOfSystem g).instructors = g.instructors.map Db.rowOfInstructor from rfl]
  rw [List.map_map, Doc.Sms.instructorIds]
  constructor
  · intro h
    obtain ⟨i, hi, he⟩ := List.mem_map.1 h
    exact List.mem_map.2 ⟨i, hi, he⟩
  · intro h
    obtain ⟨i, hi, he⟩ := List.mem_map.1 h
    exact List.mem_map.2 ⟨i, hi, he⟩

theorem loadCourses_students_nil (st : Db.Store) : (Db.loadCourses st).students = [] := by
  have h := (loadCourses_fold (Db.get_all_courses st) (Db.loadBase st)).1
  rw [Db.loadCourses, h]
  rfl

theorem loadCourses_instructor_ids (st : Db.Store) :
    (Db.loadCourses st).instructors.map Doc.Instructor.instructor_id =
      (Db.loadBase st).instructors.map Doc.Instructor.instructor_id := by
  have h := (loadCourses_fold (Db.get_all_courses st) (Db.loadBase st)).2.1
  rw [Db.loadCourses, h]

theorem loadCourses_courses_eq (st : Db.Store) :
    (Db.loadCourses st).courses = (Db.get_all_courses st).map (fun row =>
      { course_id := row.course_id, course_name := row.course_name,
        instructor := Db.resolveRef ((Db.loadBase st).instructors.map
          Doc.Instructor.instructor_id) row.instructor_id }) := by
  have h := (loadCourses_fold (Db.get_all_courses st) (Db.loadBase st)).2.2
  rw [Db.loadCourses, h]
  rw [show (Db.loadBase st).courses = [] from rfl, List.nil_append]

theorem storeOfSystem_clo (g : Doc.Sms)
    (H8 : ∀ c ∈ g.courses, ∀ iid, c.instructor = some iid → iid ∈ g.instructorIds) :
    ∀ c ∈ (Db.storeOfSystem g).courses, ∀ iid, c.instructor_id = some iid →
      ∃ i ∈ (Db.storeOfSystem g).instructors, i.instructor_id = iid := by
  intro c hc iid hci
  have hc' : c ∈ g.courses.map Db.rowOfCourse := hc
  obtain ⟨c0, hc0, rfl⟩ := List.mem_map.1 hc'
  have hmem := H8 c0 hc0 iid hci
  rw [Doc.Sms.instructorIds] at hmem
  obtain ⟨i0, hi0, hieq⟩ := List.mem_map.1 hmem
  refine ⟨Db.rowOfInstructor i0, ?_, hieq⟩
  exact List.mem_map_of_mem _ hi0

theorem loadCourses_cids (g : Doc.Sms)
    (H8 : ∀ c ∈ g.courses, ∀ iid, c.instructor = some iid → iid ∈ g.instructorIds)
    (cid : String) :
    cid ∈ (Db.loadCourses (Db.storeOfSystem g)).courses.map Doc.Course.course_id ↔
      cid ∈ g.courseIds := by
  have hchar := get_all_courses_char (Db.storeOfSystem g) (storeOfSystem_clo g H8)
  rw [loadCourses_courses_eq, List.map_map]
  constructor
  · intro h
    obtain ⟨row, hrow, he⟩ := List.mem_map.1 h
    obtain ⟨c, hc, hcc, -⟩ := hchar.1 row hrow
    have hc' : c ∈ g.courses.map Db.rowOfCourse := hc
    obtain ⟨c0, hc0, rfl⟩ := List.mem_map.1 hc'
    rw [Doc.Sms.courseIds]
    refine List.mem_map.2 ⟨c0, hc0, ?_⟩
    have he' : row.course_id = cid := he
    rw [← he', hcc]
    rfl
  · intro h
    rw [Doc.Sms.courseIds] at h
    obtain ⟨c0, hc0, he⟩ := List.mem_map.1 h
    have hcdb : Db.rowOfCourse c0 ∈ (Db.storeOfSystem g).courses :=
      List.mem_map_of_mem _ hc0
    obtain ⟨row, hrow, hcc, -⟩ := hchar.2 _ hcdb
    refine List.mem_map.2 ⟨row, hrow, ?_⟩
    show row.course_id = cid
    rw [hcc]
    exact he

theorem loadCourses_pairs (g : Doc.Sms)
    (H8 : ∀ c ∈ g.courses, ∀ iid, c.instructor = some iid → iid ∈ g.instructorIds)
    (cid iid : String) :
    ((cid, some iid) ∈ (Db.loadCourses (Db.storeOfSystem g)).courses.map fun c =>
      (c.course_id, c.instructor)) ↔ (cid, some iid) ∈ g.assignPairs := by
  have hchar := get_all_courses_char (Db.storeOfSystem g) (storeOfSystem_clo g H8)
  rw [loadCourses_courses_eq, List.map_map]
  constructor
  · intro h
    obtain ⟨row, hrow, heq⟩ := List.mem_map.1 h
    have h1 : row.course_id = cid := congrArg Prod.fst heq
    have h2 : Db.resolveRef ((Db.loadBase (Db.storeOfSystem g)).instructors.map
        Doc.Instructor.instructor_id) row.instructor_id = some iid := congrArg Prod.snd heq
    obtain ⟨h3, h4⟩ := (resolveRef_eq_some _ _ _).1 h2
    obtain ⟨c, hc, hcc, hii⟩ := hchar.1 row hrow
    have hc' : c ∈ g.courses.map Db.rowOfCourse := hc
    obtain ⟨c0, hc0, rfl⟩ := List.mem_map.1 hc'
    rw [Doc.Sms.assignPairs]
    refine List.mem_map.2 ⟨c0, hc0, ?_⟩
    have e1 : c0.course_id = cid := by
      have : row.course_id = c0.course_id := hcc
      rw [← this, h1]
    have e2 : c0.instructor = some iid := by
      have : row.instructor_id = c0.instructor := hii
      rw [← this, h3]
    rw [e1, e2]
  · intro h
    rw [Doc.Sms.assignPairs] at h
    obtain ⟨c0, hc0, heq⟩ := List.mem_map.1 h
    have e1 : c0.course_id = cid := congrArg Prod.fst heq
    have e2 : c0.instructor = some iid := congrArg Prod.snd heq
    have hcdb : Db.rowOfCourse c0 ∈ (Db.storeOfSystem g).courses :=
      List.mem_map_of_mem _ hc0
    obtain ⟨row, hrow, hcc, hii⟩ := hchar.2 _ hcdb
    refine List.mem_map.2 ⟨row, hrow, ?_⟩
    have h3 : row.instructor_id = some iid := by
      have : row.instructor_id = c0.instructor := hii
      rw [this, e2]
    have h4 : iid ∈ (Db.loadBase (Db.storeOfSystem g)).instructors.map
        Doc.Instructor.instructor_id := (loadBase_ids g iid).2 (H8 c0 hc0 iid e2)
    have h6 : row.course_id = cid := by
      have : row.course_id = c0.course_id := hcc
      rw [this, e1]
    have h5 := (resolveRef_eq_some ((Db.loadBase (Db.storeOfSystem g)).instructors.map
      Doc.Instructor.instructor_id) row.instructor_id iid).2 ⟨h3, h4⟩
    show (row.course_id, Db.resolveRef _ row.instructor_id) = (cid, some iid)
    rw [h5, h6]

theorem storeOfSystem_student_rows (g : Doc.Sms) (sid : String) :
    sid ∈ (Db.get_all_students (Db.storeOfSystem g)).map Db.StudentRow.student_id ↔
      sid ∈ g.studentIds := by
  rw [Db.get_all_students, mem_map_sortByKey]
  rw [show (Db.storeOfSystem g).students = g.students.map Db.rowOfStudent from rfl]
  rw [List.map_map, Doc.Sms.studentIds]
  constructor
  · intro h
    obtain ⟨s, hs, he⟩ := List.mem_map.1 h
    exact List.mem_map.2 ⟨s, hs, he⟩
  · intro h
    obtain ⟨s, hs, he⟩ := List.mem_map.1 h
    exact List.mem_map.2 ⟨s, hs, he⟩

theorem storeOfSystem_gsc (g : Doc.Sms) (sid cid : String) :
    cid ∈ (Db.get_student_courses (Db.storeOfSystem g) sid).map Prod.fst ↔
      (g.regEdge sid cid ∧ cid ∈ g.courseIds) := by
  rw [get_student_courses_fst_mem]
  constructor
  · rintro ⟨c, hc, hcid, r, hr, hrc, hrs⟩
    have hr' : r ∈ Db.regRowsOf g := hr
    obtain ⟨s, hs, cid2, hcid2, rfl⟩ := (mem_regRowsOf g r).1 hr'
    have hc' : c ∈ g.courses.map Db.rowOfCourse := hc
    obtain ⟨c0, hc0, rfl⟩ := List.mem_map.1 hc'
    have hcid2eq : cid2 = cid := by
      have e1 : cid2 = c0.course_id := hrc
      rw [e1]
      exact hcid
    constructor
    · refine ⟨s, hs, hrs, ?_⟩
      rw [← hcid2eq]
      exact hcid2
    · rw [Doc.Sms.courseIds]
      exact List.mem_map.2 ⟨c0, hc0, hcid⟩
  · rintro ⟨⟨s, hs, hsid, hcid⟩, hmemc⟩
    rw [Doc.Sms.courseIds] at hmemc
    obtain ⟨c0, hc0, hc0id⟩ := List.mem_map.1 hmemc
    refine ⟨Db.rowOfCourse c0, List.mem_map_of_mem _ hc0, hc0id,
      ({ student_id := s.student_id, course_id := cid } : Db.RegRow), ?_, ?_, ?_⟩
    · exact (mem_regRowsOf g _).2 ⟨s, hs, cid, hcid, rfl⟩
    · exact hc0id.symm
    · exact hsid

theorem load_store_char (g : Doc.Sms)
    (H7 : ∀ s ∈ g.students, ∀ cid ∈ s.registered_courses, cid ∈ g.courseIds)
    (H8 : ∀ c ∈ g.courses, ∀ iid, c.instructor = some iid → iid ∈ g.instructorIds) :
    (∀ sid, sid ∈ (Db.load_system_from_db (Db.storeOfSystem g)).studentIds ↔
      sid ∈ g.studentIds) ∧
    (∀ iid, iid ∈ (Db.load_system_from_db (Db.storeOfSystem g)).instructorIds ↔
      iid ∈ g.instructorIds) ∧
    (∀ cid, cid ∈ (Db.load_system_from_db (Db.storeOfSystem g)).courseIds ↔
      cid ∈ g.courseIds) ∧
    (∀ sid cid, (Db.load_system_from_db (Db.storeOfSystem g)).regEdge sid cid ↔
      g.regEdge sid cid) ∧
    (∀ cid iid, (cid, some iid) ∈ (Db.load_system_from_db (Db.storeOfSystem g)).assignPairs ↔
      (cid, some iid) ∈ g.assignPairs) := by
  obtain ⟨hL1, hL2, hL3, hL4⟩ := loadStudents_fold (Db.storeOfSystem g)
    (Db.get_all_students (Db.storeOfSystem g)) (Db.loadCourses (Db.storeOfSystem g))
  refine ⟨fun sid => ?_, fun iid => ?_, fun cid => ?_, fun sid cid => ?_, fun cid iid => ?_⟩
  · rw [Doc.Sms.studentIds, Db.load_system_from_db, hL3 sid, loadCourses_students_nil]
    simp only [List.map_nil, List.not_mem_nil, false_or]
    exact storeOfSystem_student_rows g sid
  · rw [Doc.Sms.instructorIds, Db.load_system_from_db, hL1, loadCourses_instructor_ids]
    exact loadBase_ids g iid
  · rw [Doc.Sms.courseIds, Db.load_system_from_db, courseIds_of_pairs hL2]
    exact loadCourses_cids g H8 cid
  · rw [Db.load_system_from_db, hL4 sid cid]
    constructor
    · rintro (h | ⟨hs, hc1, hc2⟩)
      · exfalso
        obtain ⟨s, hsm, -, -⟩ := h
        rw [loadCourses_students_nil] at hsm
        simp at hsm
      · exact ((storeOfSystem_gsc g sid cid).1 hc1).1
    · intro h
      have hcids : cid ∈ g.courseIds := by
        obtain ⟨s, hs, hsid, hcid⟩ := h
        exact H7 s hs cid hcid
      have hsidm : sid ∈ g.studentIds := by
        obtain ⟨s, hs, hsid, -⟩ := h
        rw [Doc.Sms.studentIds]
        exact List.mem_map.2 ⟨s, hs, hsid⟩
      refine Or.inr ⟨?_, ?_, ?_⟩
      · exact (storeOfSystem_student_rows g sid).2 hsidm
      · exact (storeOfSystem_gsc g sid cid).2 ⟨h, hcids⟩
      · exact (loadCourses_cids g H8 cid).2 hcids
  · rw [Doc.Sms.assignPairs, Db.load_system_from_db, hL2]
    exact loadCourses_pairs g H8 cid iid

/-- C1: for a graph of valid entities with unique student/instructor/course
ids, unique emails, duplicate-free registration lists, and references closed
inside the graph (every registered course id names a course of the graph and
every assigned instructor id names an instructor of the graph),
`sync_system_to_db` succeeds and `load_system_from_db` on the resulting
store yields a graph with the same student id set, instructor id set,
course id set, registration `(student, course)` edge set, and
course-to-instructor assignment edge set as the original graph. -/
theorem c1_sync_then_load_roundtrips (st : Db.Store) (g : Doc.Sms)
    (H1 : g.studentIds.Nodup)
    (H2 : g.instructorIds.Nodup)
    (H3 : g.courseIds.Nodup)
    (H4 : (g.students.map Doc.Student.email).Nodup)
    (H5 : (g.instructors.map Doc.Instructor.email).Nodup)
    (H6 : ∀ s ∈ g.students, s.registered_courses.Nodup)
    (H7 : ∀ s ∈ g.students, ∀ cid ∈ s.registered_courses, cid ∈ g.courseIds)
    (H8 : ∀ c ∈ g.courses, ∀ iid, c.instructor = some iid → iid ∈ g.instructorIds)
    (HV1 : ∀ s ∈ g.students, Doc.validate_age s.age = true)
    (HV2 : ∀ i ∈ g.instructors, Doc.validate_age i.age = true) :
    (Db.sync_system_to_db st g).1 = true ∧
    (∀ sid, sid ∈ (Db.load_system_from_db (Db.sync_system_to_db st g).2).studentIds ↔
      sid ∈ g.studentIds) ∧
    (∀ iid, iid ∈ (Db.load_system_from_db (Db.sync_system_to_db st g).2).instructorIds ↔
      iid ∈ g.instructorIds) ∧
    (∀ cid, cid ∈ (Db.load_system_from_db (Db.sync_system_to_db st g).2).courseIds ↔
      cid ∈ g.courseIds) ∧
    (∀ sid cid, (Db.load_system_from_db (Db.sync_system_to_db st g).2).regEdge sid cid ↔
      g.regEdge sid cid) ∧
    (∀ cid iid,
      (cid, some iid) ∈ (Db.load_system_from_db (Db.sync_system_to_db st g).2).assignPairs ↔
      (cid, some iid) ∈ g.assignPairs) := by
  have HA : ∀ s ∈ g.students, 0 ≤ s.age := fun s hs => by
    have h := HV1 s hs
    rw [Doc.validate_age, decide_eq_true_eq] at h
    exact h
  have HB : ∀ i ∈ g.instructors, 0 ≤ i.age := fun i hi => by
    have h := HV2 i hi
    rw [Doc.validate_age, decide_eq_true_eq] at h
    exact h
  have hsync := sync_ok st g H1 H4 HA H2 H5 HB H3 H6
  obtain ⟨P1, P2, P3, P4, P5⟩ := load_store_char g H7 H8
  refine ⟨by rw [hsync], fun sid => ?_, fun iid => ?_, fun cid => ?_,
    fun sid cid => ?_, fun cid iid => ?_⟩
  · rw [hsync]
    exact P1 sid
  · rw [hsync]
    exact P2 iid
  · rw [hsync]
    exact P3 cid
  · rw [hsync]
    exact P4 sid cid
  · rw [hsync]
    exact P5 cid iid

/-- Witness for C1 at a concrete graph and store. -/
theorem c1_sync_then_load_roundtrips_witness :
    (c1sysW.studentIds.Nodup ∧ c1sysW.instructorIds.Nodup ∧ c1sysW.courseIds.Nodup ∧
      (c1sysW.students.map Doc.Student.email).Nodup ∧
      (c1sysW.instructors.map Doc.Instructor.email).Nodup ∧
      (∀ s ∈ c1sysW.students, s.registered_courses.Nodup) ∧
      (∀ s ∈ c1sysW.students, ∀ cid ∈ s.registered_courses, cid ∈ c1sysW.courseIds) ∧
      (∀ s ∈ c1sysW.students, Doc.validate_age s.age = true) ∧
      (∀ i ∈ c1sysW.instructors, Doc.validate_age i.age = true)) ∧
    (Db.sync_system_to_db c1storeW c1sysW).1 = true ∧
    ("S1" ∈ (Db.load_system_from_db (Db.sync_system_to_db c1storeW c1sysW).2).studentIds ↔
      "S1" ∈ c1sysW.studentIds) ∧
    ("I1" ∈ (Db.load_system_from_db (Db.sync_system_to_db c1storeW c1sysW).2).instructorIds ↔
      "I1" ∈ c1sysW.instructorIds) ∧
    ("C1" ∈ (Db.load_system_from_db (Db.sync_system_to_db c1storeW c1sysW).2).courseIds ↔
      "C1" ∈ c1sysW.courseIds) ∧
    ((Db.load_system_from_db (Db.sync_system_to_db c1storeW c1sysW).2).regEdge "S1" "C1" ↔
      c1sysW.regEdge "S1" "C1") ∧
    (("C1", some "I1") ∈
        (Db.load_system_from_db (Db.sync_system_to_db c1storeW c1sysW).2).assignPairs ↔
      ("C1", some "I1") ∈ c1sysW.assignPairs) := by
  have h := c1_sync_then_load_roundtrips c1storeW c1sysW (by decide) (by decide) (by decide)
    (by decide) (by decide) (by decide) (by decide)
    (by
      intro c hc iid hci
      simp only [c1sysW, List.mem_singleton] at hc
      subst hc
      have h10 : "I1" = iid := Option.some.inj hci
      subst h10
      decide)
    (by decide) (by decide)
  exact ⟨⟨by decide, by decide, by decide, by decide, by decide, by decide, by decide,
    by decide, by decide⟩,
    h.1, h.2.1 "S1", h.2.2.1 "I1", h.2.2.2.1 "C1", h.2.2.2.2.1 "S1" "C1",
    h.2.2.2.2.2 "C1" "I1"⟩
